import Mathlib

/-!
Verification of the QMarkdownTextEdit markdown highlighter
(src/markdownhighlighter.cpp, src/markdownhighlighter.h) against its
natural-language specification.

The embedding is shallow: `QString` becomes `List Char`, the per-block
mutable context of `QSyntaxHighlighter` (current block state, the emitted
`setFormat` calls, the previous block's user state and the dirty-block
queue) becomes the record `HL` threaded through the functions, and every
loop of the source becomes a fuel recursion whose fuel is large enough for
every in-bounds run.  `QString::at`, which Qt documents as requiring a
valid index, is modelled as `List.getElem?`; a read of an out-of-bounds
index makes the surrounding scanner return `none`.  The regular-expression
engine (Qt's `QRegularExpression`) and the colour arithmetic of `QColor`
are external libraries, not code of this repository: they are abstracted
into the parameter record `Env`, whose `matches` field plays the global
match iterator and whose css fields play `QColor`.  Character
classification (`QChar::isLetter` etc.) is modelled on its Latin-1
restriction, which agrees with Qt on every input used below.
-/

set_option maxRecDepth 16000
set_option maxHeartbeats 2000000

/-- Characters of one document line, in order ("QString" restricted to one block). -/
abbrev Str := List Char

/-- QChar::isLetter on Latin-1: an ASCII letter. -/
def isLetterQ (c : Char) : Bool := (c ≥ 'a' && c ≤ 'z') || (c ≥ 'A' && c ≤ 'Z')

/-- QChar::isNumber on Latin-1: an ASCII digit. -/
def isNumberQ (c : Char) : Bool := c ≥ '0' && c ≤ '9'

/-- QChar::isSpace on Latin-1. -/
def isSpaceQ (c : Char) : Bool :=
  c == ' ' || c == '\t' || c == '\n' || c == '\x0b' || c == '\x0c' || c == '\r'

/-- MarkdownHighlighter::isOctal from the header (markdownhighlighter.h:58). -/
def isOctal (c : Char) : Bool := c ≥ '0' && c ≤ '7'

/-- MarkdownHighlighter::isHex from the header (markdownhighlighter.h:67). -/
def isHex (c : Char) : Bool :=
  (c ≥ '0' && c ≤ '9') || (c ≥ 'a' && c ≤ 'f') || (c ≥ 'A' && c ≤ 'F')

/-- QString::startsWith. -/
def strStartsWith : Str → Str → Bool
  | _, [] => true
  | [], _ :: _ => false
  | a :: t, b :: p => a == b && strStartsWith t p

/-- QString::endsWith. -/
def strEndsWith (t p : Str) : Bool := strStartsWith t.reverse p.reverse

/-- QString::contains for a substring. -/
def strContains : Str → Str → Bool
  | [], p => p.isEmpty
  | t@(_ :: r), p => strStartsWith t p || strContains r p

/-- QString::trimmed restricted to Latin-1 whitespace. -/
def trimQ (t : Str) : Str :=
  ((t.dropWhile isSpaceQ).reverse.dropWhile isSpaceQ).reverse

/-- QString::toLower (ASCII case fold, which covers every registered tag). -/
def lowerStr (t : Str) : Str := t.map Char.toLower

/-- QString::mid with Qt's semantics: a negative length takes the rest. -/
def qmid (t : Str) (pos : Nat) (n : Int) : Str :=
  if n < 0 then t.drop pos else (t.drop pos).take n.toNat

/-- Whether the word `p` of a lookup table stands at position `i` of the line
(`word == text.midRef(i, word.size())` in the source). -/
def sliceEq (t : Str) (i : Nat) (p : Str) : Bool := strStartsWith (t.drop i) p

/-- QString::indexOf(QChar, from) with Qt's -1 convention and clamping of a
negative `from` to `from + size` (never below zero). -/
def qIndexOf (t : Str) (c : Char) (start : Int) : Int :=
  let s : Nat := (if start < 0 then max (start + t.length) 0 else start).toNat
  match (t.drop s).findIdx? (fun x => x == c) with
  | some k => (k + s : Nat)
  | none => -1

/-- Search used by `qIndexOfStr`: the first position of `p` in the remaining list. -/
def strFindAux (p : Str) : Str → Nat → Option Nat
  | [], i => if p.isEmpty then some i else none
  | c :: r, i => if strStartsWith (c :: r) p then some i else strFindAux p (c :: r).tail (i + 1)

/-- QString::indexOf(QString, from) with Qt's -1 convention. -/
def qIndexOfStr (t p : Str) (start : Int) : Int :=
  let s : Nat := (if start < 0 then max (start + t.length) 0 else start).toNat
  match strFindAux p (t.drop s) 0 with
  | some k => (k + s : Nat)
  | none => -1

/-- QString::lastIndexOf(QChar, from): a negative `from` counts from the end,
a `from` at least the length is clamped to the last character. -/
def qLastIndexOf (t : Str) (c : Char) (start : Int) : Int :=
  let s : Int := if start < 0 then start + t.length else start
  if s < 0 then -1
  else
    let s' : Nat := min s.toNat (t.length - 1)
    match ((t.take (s' + 1)).reverse).findIdx? (fun x => x == c) with
    | some k => ((s' - k : Nat) : Int)
    | none => -1

/- HighlighterState of markdownhighlighter.h:76, kept as the C++ enum's
integers so the source's order comparisons and parity tricks carry over. -/
namespace HS

def NoState : Int := -1
def Link : Int := 0
def Image : Int := 3
def CodeBlock : Int := 4
def CodeBlockComment : Int := 5
def Italic : Int := 7
def Bold : Int := 8
def ListState : Int := 9
def Comment : Int := 11
def H1 : Int := 12
def H2 : Int := 13
def H3 : Int := 14
def H4 : Int := 15
def H5 : Int := 16
def H6 : Int := 17
def BlockQuote : Int := 18
def HorizontalRuler : Int := 21
def Table : Int := 22
def InlineCodeBlock : Int := 23
def MaskedSyntax : Int := 24
def CurrentLineBackgroundColor : Int := 25
def BrokenLink : Int := 26
def FrontmatterBlock : Int := 27
def TrailingSpace : Int := 28
def CheckBoxUnChecked : Int := 29
def CheckBoxChecked : Int := 30
def CodeKeyWord : Int := 1000
def CodeString : Int := 1001
def CodeComment : Int := 1002
def CodeType : Int := 1003
def CodeOther : Int := 1004
def CodeNumLiteral : Int := 1005
def CodeBuiltIn : Int := 1006
def CodeBlockEnd : Int := 100
def HeadlineEnd : Int := 101
def FrontmatterBlockEnd : Int := 102
def CodeCpp : Int := 200
def CodeCppComment : Int := 201
def CodeJs : Int := 202
def CodeJsComment : Int := 203
def CodeC : Int := 204
def CodeCComment : Int := 205
def CodeBash : Int := 206
def CodePHP : Int := 208
def CodePHPComment : Int := 209
def CodeQML : Int := 210
def CodeQMLComment : Int := 211
def CodePython : Int := 212
def CodeRust : Int := 214
def CodeRustComment : Int := 215
def CodeJava : Int := 216
def CodeJavaComment : Int := 217
def CodeCSharp : Int := 218
def CodeCSharpComment : Int := 219
def CodeGo : Int := 220
def CodeGoComment : Int := 221
def CodeV : Int := 222
def CodeVComment : Int := 223
def CodeSQL : Int := 224
def CodeJSON : Int := 226
def CodeXML : Int := 228
def CodeCSS : Int := 230
def CodeCSSComment : Int := 231
def CodeTypeScript : Int := 232
def CodeTypeScriptComment : Int := 233
def CodeYAML : Int := 234
def CodeINI : Int := 236
def CodeTaggerScript : Int := 238
def CodeVex : Int := 240
def CodeVexComment : Int := 241

end HS

/-- Colour value built by cssHighlighter before Qt interprets it: a named
colour string, an `rgb(r,g,b)` triple of digit slices, or the theme's
background colour. -/
inductive CColor where
  | named (s : Str)
  | rgb (r g b : Str)
  | fromTheme
deriving DecidableEq, Repr

/-- Foreground band chosen by cssHighlighter's lightness cascade. -/
inductive CssFg where
  | white
  | ccc
  | bbb
  | darker
  | lighter
deriving DecidableEq, Repr

/-- Style content of one `setFormat` call, at the precision the claims need:
either the theme's format for a state, or one of the handful of formats the
source builds by modifying a theme format before emitting it. -/
inductive Sty where
  /-- the plain theme format `_formats[s]` -/
  | st (s : Int)
  /-- masked syntax whose font point size was set to the size of `_formats[s]` -/
  | maskedSizedAs (s : Int)
  /-- heading format with `setFontItalic(true)` (setHeadingStyles, Italic arm) -/
  | headingItalic (s : Int)
  /-- link format given the heading's font point size (setHeadingStyles, Link arm) -/
  | linkSizedAs (s : Int)
  /-- CodeString with a single underline (ymlHighlighter http links) -/
  | stringUnderlined
  /-- CodeType with a red dotted underline (iniHighlighter unterminated section) -/
  | iniTypeErr
  /-- CodeKeyWord with a red dotted underline (iniHighlighter key without `=`) -/
  | iniKeyErr
  /-- NoState format with a red wavy underline (taggerScript unterminated `%`) -/
  | tagErrWave
  /-- a default-constructed QTextCharFormat (cssHighlighter clears the range) -/
  | cssCleared
  /-- CodeBlock format with the colour as background and the band as foreground -/
  | cssColored (c : CColor) (fg : CssFg)
deriving DecidableEq, Repr

/-- One recorded `setFormat(start, count, format)` call.  `start` and `count`
are kept as the integers the source passes, negative or overlong included. -/
structure Fmt where
  start : Int
  count : Int
  sty : Sty
deriving DecidableEq, Repr

/-- The per-invocation mutable context: the current block's state
(`currentBlockState`/user state, one storage in Qt), the `setFormat` calls in
order, the block numbers appended to `_dirtyTextBlocks` during this
invocation, and the previous block's user state, which highlightSubHeadline
overwrites and previousBlockState() then re-reads. -/
structure HL where
  state : Int
  fmts : List Fmt
  dirty : List Nat
  prevUserState : Int
deriving DecidableEq, Repr

/-- setFormat: append one recorded call. -/
def emitF (hl : HL) (start count : Int) (sty : Sty) : HL :=
  { hl with fmts := hl.fmts ++ [⟨start, count, sty⟩] }

/-- Read-only surroundings of the block being highlighted: the neighbouring
blocks' text, the document's first line, whether the current block is the
first, and the previous block's number (for the dirty queue). -/
structure Ctx where
  prevText : Str
  nextText : Str
  docFirstText : Str
  currentIsFirst : Bool
  prevBlockId : Nat
deriving Repr

/-- One regular-expression match as the abstract engine reports it:
capturedStart and capturedLength per group index (group 0 is the whole
match; Qt returns -1/0 for an absent group). -/
structure RMatch where
  capStart : Nat → Int
  capLen : Nat → Int

/-- The external collaborators the highlighter calls but this repository does
not define: Qt's regular-expression engine (`matches`, keyed by the pattern
number of the rule tables below), the theme's answer to
`format.fontPointSize() > 0`, and QColor's validity test and lightness. -/
structure Env where
  rmatches : Nat → Str → List RMatch
  pointSizePos : Int → Bool
  cssValid : CColor → Bool
  cssLightness : CColor → Int

/-- A fixed, harmless instantiation of the external collaborators, used to
close concrete statements: no regex match, the default theme's point sizes
(only H1..H6 set one), no valid css colour. -/
def envDefault : Env :=
  { rmatches := fun _ _ => []
    pointSizePos := fun s => decide (12 ≤ s ∧ s ≤ 17)
    cssValid := fun _ => false
    cssLightness := fun _ => 0 }

/-- The language registry initCodeLangs builds (markdownhighlighter.cpp:498),
entry for entry, the source's `go → CodeCSharp` and `javascript → CodeJava`
included. -/
def langStringToEnumList : List (String × Int) :=
  [("bash", HS.CodeBash), ("c", HS.CodeC), ("cpp", HS.CodeCpp),
   ("cxx", HS.CodeCpp), ("c++", HS.CodeCpp), ("c#", HS.CodeCSharp),
   ("csharp", HS.CodeCSharp), ("css", HS.CodeCSS), ("go", HS.CodeCSharp),
   ("html", HS.CodeXML), ("ini", HS.CodeINI), ("java", HS.CodeJava),
   ("javascript", HS.CodeJava), ("js", HS.CodeJs), ("json", HS.CodeJSON),
   ("php", HS.CodePHP), ("py", HS.CodePython), ("python", HS.CodePython),
   ("qml", HS.CodeQML), ("rust", HS.CodeRust), ("sh", HS.CodeBash),
   ("sql", HS.CodeSQL), ("taggerscript", HS.CodeTaggerScript),
   ("ts", HS.CodeTypeScript), ("typescript", HS.CodeTypeScript),
   ("v", HS.CodeV), ("vex", HS.CodeVex), ("xml", HS.CodeXML),
   ("yml", HS.CodeYAML), ("yaml", HS.CodeYAML)]

/-- Registry lookup as an Option, for stating which tags are registered. -/
def lookupTag (s : Str) : Option Int :=
  (langStringToEnumList.find? (fun p => p.fst.toList == s)).map Prod.snd

/-- `_langStringToEnum.value(lang)`: QHash::value returns the
value-initialized state 0 when the tag is absent. -/
def langStringToEnum (s : Str) : Int := (lookupTag s).getD 0

/-- The condition of highlightCodeBlock's first branch, negated: the previous
block state is one of the code-block states (`CodeBlock`, `CodeBlockComment`,
or any language state, all of which are at least CodeCpp). -/
def isCodeBlockState (s : Int) : Bool :=
  s == HS.CodeBlock || s == HS.CodeBlockComment || HS.CodeCpp ≤ s

/-- highlightNumericLiterals (markdownhighlighter.cpp:1157): returns the new
cursor and the format calls.  The scanner consumes a leading `0x` and then
digits and dots only; the trailing-boundary check decides whether the
numeric style is applied at all. -/
def highlightNumericLiterals (text : Str) (i0 : Nat) (hl : HL) : Nat × HL :=
  let len := text.length
  let isPreAllowed :=
    if i0 == 0 then true
    else
      let c := text.getD (i0 - 1) ' '
      c == '[' || c == '(' || c == '{' || c == ' ' || c == ',' || c == '=' || c == '+'
        || c == '-' || c == '*' || c == '/' || c == '%' || c == '<' || c == '>'
  if !isPreAllowed then (i0 + 1, hl)
  else
    let start := i0
    if i0 + 1 ≥ len then (i0 + 1, emitF hl start 1 (.st HS.CodeNumLiteral))
    else
      let i1 := i0 + 1
      let i2 := if text.getD i1 ' ' == 'x' && text.getD (i1 - 1) ' ' == '0' then i1 + 1 else i1
      let j := i2 + ((text.drop i2).takeWhile (fun c => isNumberQ c || c == '.')).length
      let j1 := j - 1
      if j1 + 1 == len then
        (j1 + 1, emitF hl start (((j1 + 1 : Nat) : Int) - start) (.st HS.CodeNumLiteral))
      else
        let c := text.getD (j1 + 1) ' '
        if c == ']' || c == ')' || c == '}' || c == ' ' || c == ',' || c == '=' || c == '+'
           || c == '-' || c == '*' || c == '/' || c == '%' || c == '>' || c == '<' || c == ';' then
          (j1 + 1, emitF hl start (((j1 + 1 : Nat) : Int) - start) (.st HS.CodeNumLiteral))
        else if c == 'u' || c == 'l' || c == 'f' || c == 'U' || c == 'L' || c == 'F' then
          (j1 + 2, emitF hl start (((j1 + 2 : Nat) : Int) - start) (.st HS.CodeNumLiteral))
        else (j1, hl)

/-- Loop of highlightStringLiterals (markdownhighlighter.cpp:1053).  `none`
records the out-of-bounds `text.at(i+3)` read of the `\xH`-at-end-of-line
hex case (the source checks `i + 3 <= text.length()` and then reads index
`i + 3`). -/
def stringLitLoop (strType : Char) (text : Str) : Nat → Nat → HL → Option (Nat × HL)
  | 0, i, hl => some (i, hl)
  | fuel + 1, i, hl =>
    let len := text.length
    if i ≥ len then some (i, hl)
    else
      let c := text.getD i ' '
      if c == strType && text.getD (i - 1) ' ' != '\\' then
        some (i + 1, emitF hl i 1 (.st HS.CodeString))
      else if c == '\\' && i + 1 < len then
        let k := text.getD (i + 1) ' '
        let escLen : Option Nat :=
          if k == 'a' || k == 'b' || k == 'e' || k == 'f' || k == 'n' || k == 'r' || k == 't'
             || k == 'v' || k == '\'' || k == '"' || k == '\\' || k == '?' then some 2
          else if isOctal k then
            if i + 4 ≤ len then
              if !(isOctal (text.getD (i + 2) ' ')) then some 0
              else if !(isOctal (text.getD (i + 3) ' ')) then some 0
              else some 4
            else some 0
          else if k == 'x' then
            if i + 3 ≤ len then
              if !(isHex (text.getD (i + 2) ' ')) then some 0
              else
                match text[i + 3]? with
                | none => none
                | some c3 => if isHex c3 then some 4 else some 0
            else some 0
          else some 0
        match escLen with
        | none => none
        | some 0 => stringLitLoop strType text fuel (i + 1) (emitF hl i 1 (.st HS.CodeString))
        | some (n + 1) =>
          stringLitLoop strType text fuel (i + (n + 1))
            (emitF hl i ((n + 1 : Nat) : Int) (.st HS.CodeNumLiteral))
      else stringLitLoop strType text fuel (i + 1) (emitF hl i 1 (.st HS.CodeString))

/-- highlightStringLiterals: style the opening quote, then run the loop. -/
def highlightStringLiterals (strType : Char) (text : Str) (i : Nat) (hl : HL) :
    Option (Nat × HL) :=
  stringLitLoop strType text (text.length + 1) (i + 1) (emitF hl i 1 (.st HS.CodeString))

/-- The `Comment:` label of highlightSyntax (markdownhighlighter.cpp:932):
search `*/` from the start of the line; `inl` means the function returns
(post processors skipped), `inr` the new cursor. -/
def commentClose (text : Str) (i : Nat) (hl : HL) : HL ⊕ (Nat × HL) :=
  let len := text.length
  let next := qIndexOfStr text ("*/".toList) 0
  if next == -1 then
    let hl := if hl.state % 2 == 0 then { hl with state := hl.state + 1 } else hl
    Sum.inl (emitF hl i len (.st HS.CodeComment))
  else
    let hl := if hl.state % 2 != 0 then { hl with state := hl.state - 1 } else hl
    let nx := (next + 2).toNat
    let hl := emitF hl i ((nx : Int) - (i : Int)) (.st HS.CodeComment)
    if nx ≥ len then Sum.inl hl else Sum.inr (nx, hl)

/-- Result of the non-letter skipping loop of highlightSyntax: an
out-of-bounds read, an early `return`, or the fall-through to the word
tables at position `i`. -/
inductive WRes where
  | fail
  | early (hl : HL)
  | toWord (i : Nat) (hl : HL)

/-- No annotation of the list carries the TrailingSpace style. -/
def NoTS (l : List Fmt) : Prop := ∀ f ∈ l, f.sty ≠ Sty.st HS.TrailingSpace

/-- The format calls held by a commentClose result. -/
def ccFmts : HL ⊕ (Nat × HL) → List Fmt
  | .inl hl => hl.fmts
  | .inr p => p.2.fmts

/-- NoTS lifted over a skipping-loop result. -/
def wresOK : WRes → Prop
  | .fail => True
  | .early hl => NoTS hl.fmts
  | .toWord _ hl => NoTS hl.fmts

/-- The format calls held by an optional context (none holds none). -/
def optFmts : Option HL → List Fmt
  | none => []
  | some hl => hl.fmts

/-- The format calls held by an optional cursor/context pair. -/
def pairFmts : Option (Nat × HL) → List Fmt
  | none => []
  | some p => p.2.fmts

/-- The `while (i < textLen && !text[i].isLetter())` loop of highlightSyntax
(markdownhighlighter.cpp:917): spaces, `//` and `/* */` comments, the
language's single-line comment character, numeric and string literals. -/
def synWhile (comment : Option Char) (text : Str) : Nat → Nat → HL → WRes
  | 0, i, hl => .toWord i hl
  | fuel + 1, i, hl =>
    let len := text.length
    if i ≥ len || isLetterQ (text.getD i ' ') then .toWord i hl
    else
      let c := text.getD i ' '
      if isSpaceQ c then
        let i := i + 1
        if i == len then .toWord i hl
        else if isLetterQ (text.getD i ' ') then .toWord i hl
        else synWhile comment text fuel i hl
      else if comment.isNone && c == '/' then
        if i + 1 < len then
          if text.getD (i + 1) ' ' == '/' then .early (emitF hl i len (.st HS.CodeComment))
          else if text.getD (i + 1) ' ' == '*' then
            match commentClose text i hl with
            | .inl hl => .early hl
            | .inr (i, hl) =>
              if i ≥ len then .toWord i hl else synWhile comment text fuel (i + 1) hl
          else if i ≥ len then .toWord i hl else synWhile comment text fuel (i + 1) hl
        else if i ≥ len then .toWord i hl else synWhile comment text fuel (i + 1) hl
      else if comment == some c then
        .toWord len (emitF hl i len (.st HS.CodeComment))
      else if isNumberQ c then
        let p := highlightNumericLiterals text i hl
        if p.1 ≥ len then .toWord p.1 p.2 else synWhile comment text fuel (p.1 + 1) p.2
      else if c == '"' then
        match highlightStringLiterals '"' text i hl with
        | none => .fail
        | some (i, hl) => if i ≥ len then .toWord i hl else synWhile comment text fuel (i + 1) hl
      else if c == '\'' then
        match highlightStringLiterals '\'' text i hl with
        | none => .fail
        | some (i, hl) => if i ≥ len then .toWord i hl else synWhile comment text fuel (i + 1) hl
      else if i ≥ len then .toWord i hl
      else synWhile comment text fuel (i + 1) hl

/-- Per-language word tables: five QMultiHash buckets keyed by the word's
first byte (markdownhighlighter.cpp:783). -/
structure LangBundle where
  types : Char → List Str
  keywords : Char → List Str
  builtin : Char → List Str
  literals : Char → List Str
  others : Char → List Str

/-- A bundle with every bucket empty. -/
def emptyBundle : LangBundle :=
  ⟨fun _ => [], fun _ => [], fun _ => [], fun _ => [], fun _ => []⟩

/-- The applyCodeFormat lambda of highlightSyntax
(markdownhighlighter.cpp:882): at a word start, try every word of the
first-letter bucket, style a whole-word match and advance past it. -/
def applyCodeFormat (i0 : Nat) (bucket : Char → List Str) (text : Str) (sty : Sty)
    (hl : HL) : Nat × HL :=
  let len := text.length
  if (i0 == 0 || !(isLetterQ (text.getD (i0 - 1) ' '))) && !(bucket (text.getD i0 ' ')).isEmpty then
    (bucket (text.getD i0 ' ')).foldl
      (fun (p : Nat × HL) w =>
        if sliceEq text p.1 w then
          if p.1 + w.length == len || !(isLetterQ (text.getD (p.1 + w.length) ' ')) then
            (p.1 + w.length, emitF p.2 p.1 w.length sty)
          else p
        else p)
      (i0, hl)
  else (i0, hl)

/-- The `others` table block of the word phase, with the extra `#` column
(start one earlier, one longer) for C and C++. -/
def othersPhase (bundle : LangBundle) (text : Str) (p : Nat × HL) : Nat × HL :=
  let len := text.length
  if (p.1 == 0 || !(isLetterQ (text.getD (p.1 - 1) ' ')))
     && !(bundle.others (text.getD p.1 ' ')).isEmpty then
    (bundle.others (text.getD p.1 ' ')).foldl
      (fun (q : Nat × HL) w =>
        if sliceEq text q.1 w then
          if q.1 + w.length == len || !(isLetterQ (text.getD (q.1 + w.length) ' ')) then
            let hl' :=
              if q.2.state == HS.CodeCpp || q.2.state == HS.CodeC then
                emitF q.2 ((q.1 : Int) - 1) ((w.length : Nat) + 1 : Nat) (.st HS.CodeOther)
              else emitF q.2 q.1 w.length (.st HS.CodeOther)
            (q.1 + w.length, hl')
          else q
        else q)
      p
  else p

/-- The word phase of highlightSyntax's for loop: types, keywords, literals,
builtins, then the `others` table, and the skip over an unmatched letter
run. -/
def wordPhase (bundle : LangBundle) (text : Str) (i0 : Nat) (hl : HL) : Nat × HL :=
  let len := text.length
  let pos := i0
  if i0 == len || !(isLetterQ (text.getD i0 ' ')) then (i0, hl)
  else
    let p := applyCodeFormat i0 bundle.types text (.st HS.CodeType) hl
    if p.1 == len || !(isLetterQ (text.getD p.1 ' ')) then p
    else
      let p := applyCodeFormat p.1 bundle.keywords text (.st HS.CodeKeyWord) p.2
      if p.1 == len || !(isLetterQ (text.getD p.1 ' ')) then p
      else
        let p := applyCodeFormat p.1 bundle.literals text (.st HS.CodeNumLiteral) p.2
        if p.1 == len || !(isLetterQ (text.getD p.1 ' ')) then p
        else
          let p := applyCodeFormat p.1 bundle.builtin text (.st HS.CodeBuiltIn) p.2
          if p.1 == len || !(isLetterQ (text.getD p.1 ' ')) then p
          else
            let p := othersPhase bundle text p
            if pos == p.1 then
              (p.1 + ((text.drop p.1).takeWhile isLetterQ).length, p.2)
            else p

/-- One iteration's entry of highlightSyntax's for loop: while the block
state is odd (inside a `/* */` comment) control jumps to the comment-close
search, resuming the skipping loop after it; otherwise the skipping loop
runs directly. -/
def synStep (comment : Option Char) (text : Str) (i : Nat) (hl : HL) : WRes :=
  let len := text.length
  if hl.state % 2 != 0 then
    match commentClose text i hl with
    | .inl hl => .early hl
    | .inr (i', hl) =>
      if i' ≥ len then .toWord i' hl else synWhile comment text (len + 1) (i' + 1) hl
  else synWhile comment text (len + 1) i hl

/-- The outer `for` loop of highlightSyntax, one recursion step per
iteration; `true` in the result marks an early `return` (the post
processors are then skipped). -/
def synFor (bundle : LangBundle) (comment : Option Char) (text : Str) :
    Nat → Nat → HL → Option (HL × Bool)
  | 0, _, hl => some (hl, false)
  | fuel + 1, i, hl =>
    if i ≥ text.length then some (hl, false)
    else
      match synStep comment text i hl with
      | .fail => none
      | .early hl => some (hl, true)
      | .toWord i' hl =>
        let p := wordPhase bundle text i' hl
        synFor bundle comment text fuel (p.1 + 1) p.2

/-- Result of one iteration of ymlHighlighter's loop: stop (the source's
break or return) or continue at the next cursor with the updated
colonNotFound flag. -/
inductive YmlRes where
  | stop (hl : HL)
  | next (i : Nat) (cnf : Bool) (hl : HL)

/-- The format calls held by a YmlRes. -/
def yresFmts : YmlRes → List Fmt
  | .stop hl => hl.fmts
  | .next _ _ hl => hl.fmts

/-- One iteration of ymlHighlighter's loop (markdownhighlighter.cpp:1324):
keyword spans up to the first colon, quoted-span skipping, and underlined
http links. -/
def ymlStep (text : Str) (i : Nat) (cnf : Bool) (hl : HL) : YmlRes :=
  let len := text.length
  let c := text.getD i ' '
  if !(isLetterQ c) then .next (i + 1) cnf hl
  else if cnf && c != 'h' then .next (i + 1) cnf hl
  else if i != 0 && text.getD (i - 1) ' ' == '"' then
    let nxt := qIndexOf text '"' i
    if nxt == -1 then .stop hl else .next (nxt.toNat + 1) cnf hl
  else if i != 0 && text.getD (i - 1) ' ' == '\'' then
    let nxt := qIndexOf text '\'' i
    if nxt == -1 then .stop hl else .next (nxt.toNat + 1) cnf hl
  else
    let colon := qIndexOf text ':' i
    let cnf := if colon == -1 then true else cnf
    if !cnf && colon + 1 == (len : Int) then
      .stop (emitF hl i (colon - i) (.st HS.CodeKeyWord))
    else
      let hl :=
        if !cnf then
          if !(text.getD (colon.toNat + 1) ' ' == '\\' && text.getD (colon.toNat + 1) ' ' == '/') then
            emitF hl i (colon - i) (.st HS.CodeKeyWord)
          else hl
        else hl
      if c == 'h' then
        if sliceEq text i ("https".toList) || sliceEq text i ("http".toList) then
          let space := qIndexOf text ' ' i
          let space := if space == -1 then (len : Int) else space
          .next (space.toNat + 1) cnf (emitF hl i (space - i) .stringUnderlined)
        else .next (i + 1) cnf hl
      else .next (i + 1) cnf hl

/-- The loop of ymlHighlighter: the `colonNotFound` flag persists across
iterations as in the source.  The loop itself never fails. -/
def ymlLoop (text : Str) : Nat → Nat → Bool → HL → HL
  | 0, _, _, hl => hl
  | fuel + 1, i, cnf, hl =>
    if i ≥ text.length then hl
    else
      match ymlStep text i cnf hl with
      | .stop hl => hl
      | .next i' cnf' hl' => ymlLoop text fuel i' cnf' hl'

/-- ymlHighlighter (markdownhighlighter.cpp:1316).  `none` records the
out-of-bounds read `text.trimmed().at(0)` on a line whose trimmed text is
empty: the source guards `text.isEmpty()` but not the trimmed string. -/
def ymlHighlighter (text : Str) (hl : HL) : Option HL :=
  if text.isEmpty then some hl
  else
    match (trimQ text)[0]? with
    | none => none
    | some c0 =>
      if c0 == '#' then some hl
      else some (ymlLoop text (text.length + 1) 0 false hl)

/-- Loop of iniHighlighter (markdownhighlighter.cpp:1401): `[section]`
spans (red dotted underline when unterminated), `;` comments, keys up to
`=` (red dotted underline when `=` is missing), values skipped. -/
def iniLoop (text : Str) : Nat → Nat → HL → HL
  | 0, _, hl => hl
  | fuel + 1, i, hl =>
    let len := text.length
    if i ≥ len then hl
    else
      let c := text.getD i ' '
      if c == '[' then
        let se := qIndexOf text ']' i
        let sty : Sty := if se == -1 then .iniTypeErr else .st HS.CodeType
        let se : Nat := (if se == -1 then len else se.toNat) + 1
        let hl := emitF hl i ((se : Int) - i) sty
        if se ≥ len then hl else iniLoop text fuel (se + 1) hl
      else if c == ';' then
        emitF hl i len (.st HS.CodeComment)
      else if isLetterQ c then
        let ep := qIndexOf text '=' i
        let sty : Sty := if ep == -1 then .iniKeyErr else .st HS.CodeKeyWord
        let ep : Nat := if ep == -1 then len else ep.toNat
        let hl := emitF hl i ((ep : Int) - i) sty
        let i' := ep - 1
        if i' ≥ len then hl else iniLoop text fuel (i' + 1) hl
      else if c == '=' then
        let fc := qIndexOf text ';' i
        if fc == -1 then hl
        else iniLoop text fuel ((fc.toNat - 1) + 1) hl
      else iniLoop text fuel (i + 1) hl

/-- iniHighlighter: guard and loop. -/
def iniHighlighter (text : Str) (hl : HL) : HL :=
  if text.isEmpty then hl else iniLoop text (text.length + 1) 0 hl

/-- Result of one iteration of cssHighlighter's loop: stop (the early
return) or continue at the next cursor. -/
inductive CssRes where
  | stop (hl : HL)
  | next (i : Nat) (hl : HL)

/-- The format calls held by a CssRes. -/
def crFmts : CssRes → List Fmt
  | .stop hl => hl.fmts
  | .next _ hl => hl.fmts

/-- The `.`/`#` selector branch of cssHighlighter: up to the next space (or
the first `{`, or the line end) styled as keyword. -/
def cssSelectorPhase (text : Str) (i : Nat) (hl : HL) : CssRes :=
  if i + 1 ≥ text.length then .stop hl
  else if isSpaceQ (text.getD (i + 1) ' ') || isNumberQ (text.getD (i + 1) ' ') then
    .next (i + 1) hl
  else
    let space := qIndexOf text ' ' i
    let space :=
      if space < 0 then
        let s2 := qIndexOf text '{' 0
        if s2 < 0 then (text.length : Int) else s2
      else space
    .next (space.toNat + 1) (emitF hl i (space - i) (.st HS.CodeKeyWord))

/-- The colour value of a `color:` property: an `rgb(r,g,b)` slice triple
when the three delimiters are found, the theme background when not, a
named colour string otherwise. -/
def cssColorOf (text : Str) (i : Nat) (semicolon : Int) : CColor :=
  let colorStr := qmid text i (semicolon - i)
  if strStartsWith colorStr ("rgb".toList) then
    let t := qIndexOf text '(' i
    let rPos := qIndexOf text ',' t
    let gPos := qIndexOf text ',' (rPos + 1)
    let bPos := qIndexOf text ')' gPos
    if rPos > -1 && gPos > -1 && bPos > -1 then
      .rgb (qmid text (t.toNat + 1) (rPos - (t + 1)))
        (qmid text (rPos.toNat + 1) (gPos - (rPos + 1)))
        (qmid text (gPos.toNat + 1) (bPos - (gPos + 1)))
    else .fromTheme
  else .named colorStr

/-- The lightness cascade of cssHighlighter choosing the foreground. -/
def cssBand (l : Int) : CssFg :=
  if l ≤ 20 then .white
  else if l > 20 && l ≤ 51 then .ccc
  else if l > 51 && l ≤ 78 then .bbb
  else if l > 78 && l ≤ 110 then .bbb
  else if l > 127 then .darker
  else .lighter

/-- The `color:` property branch of cssHighlighter, entered just past the
word `color`: skip to the value, clear its range and re-style it with the
colour as background and the banded foreground (QColor abstracted through
`Env`). -/
def cssColorPhase (env : Env) (text : Str) (i : Nat) (hl : HL) : CssRes :=
  let colon := qIndexOf text ':' (i : Int)
  if colon < 0 then .next (i + 1) hl
  else
    let i := colon.toNat + 1
    let i := i + ((text.drop i).takeWhile isSpaceQ).length
    let semicolon0 := qIndexOf text ';' 0
    let semicolon := if semicolon0 < 0 then (text.length : Int) else semicolon0
    let cc := cssColorOf text i semicolon
    if !(env.cssValid cc) then .next (i + 1) hl
    else
      .next (semicolon.toNat + 1)
        (emitF (emitF hl i (semicolon - i) .cssCleared) i (semicolon - i)
          (.cssColored cc (cssBand (env.cssLightness cc))))

/-- One iteration of cssHighlighter's loop (markdownhighlighter.cpp:1451). -/
def cssStep (env : Env) (text : Str) (i : Nat) (hl : HL) : CssRes :=
  let c := text.getD i ' '
  if c == '.' || c == '#' then cssSelectorPhase text i hl
  else if c == 'c' then
    if sliceEq text i ("color".toList) then cssColorPhase env text (i + 5) hl
    else .next (i + 1) hl
  else .next (i + 1) hl

/-- The loop of cssHighlighter. -/
def cssLoop (env : Env) (text : Str) : Nat → Nat → HL → HL
  | 0, _, hl => hl
  | fuel + 1, i, hl =>
    if i ≥ text.length then hl
    else
      match cssStep env text i hl with
      | .stop hl => hl
      | .next i' hl' => cssLoop env text fuel i' hl'

/-- cssHighlighter: guard and loop (the backwards `indexOf(';')` from zero
can move the cursor left, hence the quadratic fuel). -/
def cssHighlighter (env : Env) (text : Str) (hl : HL) : HL :=
  if text.isEmpty then hl
  else cssLoop env text (text.length * text.length + 2 * text.length + 2) 0 hl

/-- The string-scanning while loop of xmlHighlighter
(markdownhighlighter.cpp:1561), returning the cursor and the running
`cnt`. -/
def xmlStrScan (text : Str) : Nat → Nat → Nat → Nat × Nat
  | 0, i, cnt => (i, cnt)
  | fuel + 1, i, cnt =>
    if i ≥ text.length then (i, cnt)
    else if text.getD i ' ' == '"' then (i + 1, cnt + 1)
    else
      let i := i + 1
      let cnt := cnt + 1
      if i + 1 ≥ text.length then (i, cnt + 1)
      else xmlStrScan text fuel i cnt

/-- The `<tag>` phase of one xmlHighlighter iteration; `none` records the
unguarded `text[i+1]` read when `<` is the line's last character. -/
def xmlTagPhase (text : Str) (i : Nat) (hl : HL) : Option (Nat × HL) :=
  if text.getD i ' ' == '<' then
    match text[i + 1]? with
    | none => none
    | some c1 =>
      if c1 != '!' then
        let found := qIndexOf text '>' i
        if found > 0 then
          let i := i + 1
          let i := if text.getD i ' ' == '/' then i + 1 else i
          some (i, emitF hl i (found - i) (.st HS.CodeKeyWord))
        else some (i, hl)
      else some (i, hl)
  else some (i, hl)

/-- The `attribute=` phase of one xmlHighlighter iteration (the cursor is
left unchanged by the source's branch). -/
def xmlEqPhase (text : Str) (i : Nat) (hl : HL) : HL :=
  if text.getD i ' ' == '=' then
    let ls := qLastIndexOf text ' ' (i : Int)
    let ls := if ls == (i : Int) - 1 then qLastIndexOf text ' ' ((i : Int) - 2) else ls
    if ls > 0 then emitF hl ls ((i : Int) - ls) (.st HS.CodeBuiltIn) else hl
  else hl

/-- Loop of xmlHighlighter (markdownhighlighter.cpp:1536). -/
def xmlLoop (text : Str) : Nat → Nat → HL → Option HL
  | 0, _, hl => some hl
  | fuel + 1, i, hl =>
    let len := text.length
    if i ≥ len then some hl
    else
      match xmlTagPhase text i hl with
      | none => none
      | some (i, hl) =>
        let hl := xmlEqPhase text i hl
        if text.getD i ' ' == '"' then
          let pos := i
          let i := i + 1
          if i + 1 ≥ len then some hl
          else
            let q := xmlStrScan text (len + 1) i 1
            xmlLoop text fuel (q.1 + 1) (emitF hl pos q.2 (.st HS.CodeString))
        else xmlLoop text fuel (i + 1) hl

/-- xmlHighlighter: default code-block format over the line, then the loop. -/
def xmlHighlighter (text : Str) (hl : HL) : Option HL :=
  if text.isEmpty then some hl
  else xmlLoop text (text.length + 1) 0 (emitF hl 0 text.length (.st HS.CodeBlock))

/-- The `$function(` keyword phase of one taggerScriptHighlighter
iteration (markdownhighlighter.cpp:1256); in the loop, `none` records the
unguarded `text.at(i)` escape-char read after an unterminated `%` at the
end of the line. -/
def tagDollarPhase (text : Str) (i : Nat) (hl : HL) : Nat × HL :=
  if text.getD i ' ' == '$' && !(sliceEq text i ("$noop".toList)) then
    let nxt := (qIndexOf text '(' i).toNat
    (nxt, emitF hl i ((nxt : Int) - i) (.st HS.CodeKeyWord))
  else (i, hl)

/-- The `%variable%` phase of one taggerScriptHighlighter iteration. -/
def tagPercentPhase (text : Str) (i : Nat) (hl : HL) : Nat × HL :=
  if text.getD i ' ' == '%' then
    let nxt := qIndexOf text '%' ((i : Int) + 1)
    let start := i
    if nxt != -1 then (nxt.toNat, emitF hl start (nxt - start + 1) (.st HS.CodeType))
    else (i + 1, emitF hl start 1 .tagErrWave)
  else (i, hl)

/-- The `$noop(...)` comment phase of one taggerScriptHighlighter
iteration. -/
def tagNoopPhase (text : Str) (i : Nat) (hl : HL) : Nat × HL :=
  if sliceEq text i ("$noop".toList) then
    let nxt := (qIndexOf text ')' i).toNat
    (nxt, emitF hl i ((nxt : Int) - i + 1) (.st HS.CodeComment))
  else (i, hl)

/-- Loop of taggerScriptHighlighter (markdownhighlighter.cpp:1256). -/
def tagLoop (text : Str) : Nat → Nat → HL → Option HL
  | 0, _, hl => some hl
  | fuel + 1, i, hl =>
    if i ≥ text.length then some hl
    else if text.getD i ' ' == '$' && !(sliceEq text i ("$noop".toList))
            && qIndexOf text '(' i == -1 then
      some hl
    else
      let p := tagDollarPhase text i hl
      let p := tagPercentPhase text p.1 p.2
      if sliceEq text p.1 ("$noop".toList) && qIndexOf text ')' p.1 == -1 then
        some p.2
      else
        let p := tagNoopPhase text p.1 p.2
        match text[p.1]? with
        | none => none
        | some c =>
          let q :=
            if c == '\\' then (p.1 + 1, emitF p.2 p.1 2 (.st HS.CodeOther))
            else (p.1, p.2)
          tagLoop text fuel (q.1 + 1) q.2

/-- taggerScriptHighlighter: guard and loop. -/
def taggerScriptHighlighter (text : Str) (hl : HL) : Option HL :=
  if text.isEmpty then some hl else tagLoop text (text.length + 1) 0 hl

/-- Modelled from the spec: the per-language word lists live in
qownlanguagedata.h, which is not among the repository's source files; the
spec treats them as an injected, opaque data bundle (section 3, "Language
data bundle").  Only the single word the claims exercise is included:
scenario 3 of section 8 fixes that `int` is a C++ type. -/
def loadCppData : LangBundle :=
  { emptyBundle with types := fun c => if c == 'i' then ["int".toList] else [] }

/-- Modelled from the spec: opaque injected bundle (see loadCppData). -/
def loadJSData : LangBundle := emptyBundle

/-- Modelled from the spec: opaque injected bundle (see loadCppData). -/
def loadShellData : LangBundle := emptyBundle

/-- Modelled from the spec: opaque injected bundle (see loadCppData). -/
def loadPHPData : LangBundle := emptyBundle

/-- Modelled from the spec: opaque injected bundle (see loadCppData). -/
def loadQMLData : LangBundle := emptyBundle

/-- Modelled from the spec: opaque injected bundle (see loadCppData). -/
def loadPythonData : LangBundle := emptyBundle

/-- Modelled from the spec: opaque injected bundle (see loadCppData). -/
def loadRustData : LangBundle := emptyBundle

/-- Modelled from the spec: opaque injected bundle (see loadCppData). -/
def loadJavaData : LangBundle := emptyBundle

/-- Modelled from the spec: opaque injected bundle (see loadCppData). -/
def loadCSharpData : LangBundle := emptyBundle

/-- Modelled from the spec: opaque injected bundle (see loadCppData). -/
def loadGoData : LangBundle := emptyBundle

/-- Modelled from the spec: opaque injected bundle (see loadCppData). -/
def loadVData : LangBundle := emptyBundle

/-- Modelled from the spec: opaque injected bundle (see loadCppData). -/
def loadSQLData : LangBundle := emptyBundle

/-- Modelled from the spec: opaque injected bundle (see loadCppData). -/
def loadJSONData : LangBundle := emptyBundle

/-- Modelled from the spec: opaque injected bundle (see loadCppData). -/
def loadCSSData : LangBundle := emptyBundle

/-- Modelled from the spec: opaque injected bundle (see loadCppData). -/
def loadTypescriptData : LangBundle := emptyBundle

/-- Modelled from the spec: opaque injected bundle (see loadCppData). -/
def loadYAMLData : LangBundle := emptyBundle

/-- Modelled from the spec: opaque injected bundle (see loadCppData). -/
def loadVEXData : LangBundle := emptyBundle

/-- The switch of highlightSyntax (markdownhighlighter.cpp:791): which
bundle is loaded, the single-line comment character, and the isCSS/isYAML
flags.  XML, INI and tagger-script leave through their own scanners before
this is used. -/
def syntaxTables (s : Int) : LangBundle × Option Char × Bool × Bool :=
  if s == HS.CodeCpp || s == HS.CodeCppComment then (loadCppData, none, false, false)
  else if s == HS.CodeJs || s == HS.CodeJsComment then (loadJSData, none, false, false)
  else if s == HS.CodeC || s == HS.CodeCComment then (loadCppData, none, false, false)
  else if s == HS.CodeBash then (loadShellData, some '#', false, false)
  else if s == HS.CodePHP || s == HS.CodePHPComment then (loadPHPData, none, false, false)
  else if s == HS.CodeQML || s == HS.CodeQMLComment then (loadQMLData, none, false, false)
  else if s == HS.CodePython then (loadPythonData, some '#', false, false)
  else if s == HS.CodeRust || s == HS.CodeRustComment then (loadRustData, none, false, false)
  else if s == HS.CodeJava || s == HS.CodeJavaComment then (loadJavaData, none, false, false)
  else if s == HS.CodeCSharp || s == HS.CodeCSharpComment then (loadCSharpData, none, false, false)
  else if s == HS.CodeGo || s == HS.CodeGoComment then (loadGoData, none, false, false)
  else if s == HS.CodeV || s == HS.CodeVComment then (loadVData, none, false, false)
  else if s == HS.CodeSQL then (loadSQLData, none, false, false)
  else if s == HS.CodeJSON then (loadJSONData, none, false, false)
  else if s == HS.CodeCSS || s == HS.CodeCSSComment then (loadCSSData, none, true, false)
  else if s == HS.CodeTypeScript || s == HS.CodeTypeScriptComment then
    (loadTypescriptData, none, false, false)
  else if s == HS.CodeYAML then (loadYAMLData, some '#', false, true)
  else if s == HS.CodeVex || s == HS.CodeVexComment then (loadVEXData, none, false, false)
  else (emptyBundle, none, false, false)

/-- highlightSyntax (markdownhighlighter.cpp:772): dispatch, the default
code-block format over the whole line, the scanner loop, and the CSS/YAML
post processors (skipped when the loop returned early). -/
def highlightSyntaxFn (env : Env) (text : Str) (hl : HL) : Option HL :=
  if text.isEmpty then some hl
  else if hl.state == HS.CodeXML then xmlHighlighter text hl
  else if hl.state == HS.CodeINI then some (iniHighlighter text hl)
  else if hl.state == HS.CodeTaggerScript then taggerScriptHighlighter text hl
  else
    let tbl := syntaxTables hl.state
    let len := text.length
    let hl := emitF hl 0 len (.st HS.CodeBlock)
    match synFor tbl.1 tbl.2.1 text (len + 2) 0 hl with
    | none => none
    | some (hl, true) => some hl
    | some (hl, false) =>
      let hl := if tbl.2.2.1 then cssHighlighter env text hl else hl
      if tbl.2.2.2 then ymlHighlighter text hl else some hl

/-- highlightCodeBlock (markdownhighlighter.cpp:735).  A line starting with
three backticks opens a block (tag looked up after lowercasing; QHash's
default 0 falls below CodeCpp, so unknown tags yield the generic
CodeBlock) or, when the previous state is already a code-block state,
closes it with CodeBlockEnd; the whole line is masked at the code-block
font size (the source mutates the shared MaskedSyntax theme format through
a reference to set that size).  Other lines inside a code block carry the
previous state and run the code scanner. -/
def highlightCodeBlock (env : Env) (text : Str) (hl : HL) : Option HL :=
  if strStartsWith text ("```".toList) then
    let hl :=
      if hl.prevUserState != HS.CodeBlock && hl.prevUserState != HS.CodeBlockComment
         && hl.prevUserState < HS.CodeCpp then
        let lang := lowerStr (qmid text 3 (text.length : Int))
        let progLang := langStringToEnum lang
        if progLang ≥ HS.CodeCpp then { hl with state := progLang }
        else { hl with state := HS.CodeBlock }
      else if hl.prevUserState == HS.CodeBlock || hl.prevUserState == HS.CodeBlockComment
              || hl.prevUserState ≥ HS.CodeCpp then
        { hl with state := HS.CodeBlockEnd }
      else hl
    some (emitF hl 0 text.length (.maskedSizedAs HS.CodeBlock))
  else if hl.prevUserState == HS.CodeBlock || hl.prevUserState == HS.CodeBlockComment
          || hl.prevUserState ≥ HS.CodeCpp then
    highlightSyntaxFn env text { hl with state := hl.prevUserState }
  else some hl

/-- One entry of the rule tables that initHighlightingRules builds
(markdownhighlighter.cpp:113): the pattern is named by a number (the regex
engine lives in `Env`), the rest mirrors the C++ struct. -/
structure HighlightingRule where
  pid : Nat
  state : Int
  c0 : Str
  c1 : Str := []
  c2 : Str := []
  capturingGroup : Nat := 0
  maskedGroup : Nat := 0
  useStateAsCurrentBlockState : Bool := false
  disableIfCurrentStateIsSet : Bool := false

/-- The pre-heading rule table, in insertion order: reference links,
unordered and ordered lists (the ordered rule keeps the unordered rule's
shouldContain strings, as the reused C++ rule object does), checked and
unchecked checkboxes, block quotes, horizontal rulers. -/
def highlightingRulesPre : List HighlightingRule :=
  [ { pid := 0, state := HS.MaskedSyntax, c0 := "://".toList },
    { pid := 1, state := HS.ListState, c0 := "- ".toList, c1 := "* ".toList,
      c2 := "+ ".toList, useStateAsCurrentBlockState := true },
    { pid := 2, state := HS.ListState, c0 := "- ".toList, c1 := "* ".toList,
      c2 := "+ ".toList, useStateAsCurrentBlockState := true },
    { pid := 3, state := HS.CheckBoxChecked, c0 := "- [x]".toList, c1 := "* [x]".toList,
      c2 := "+ [x]".toList, capturingGroup := 1 },
    { pid := 4, state := HS.CheckBoxUnChecked, c0 := "- [".toList, c1 := "* [".toList,
      c2 := "+ [".toList, capturingGroup := 1 },
    { pid := 5, state := HS.BlockQuote, c0 := "> ".toList },
    { pid := 6, state := HS.HorizontalRuler, c0 := "---".toList, c1 := "***".toList,
      c2 := "+++".toList } ]

/-- The post-heading rule table, in insertion order.  The underscore-italic
rule keeps shouldContain `*`: the source assigns `_` only after appending
the copy (markdownhighlighter.cpp:208).  The source never sets maskedGroup,
so it stays 0 (the whole match) everywhere. -/
def highlightingRulesAfter : List HighlightingRule :=
  [ { pid := 7, state := HS.Italic, c0 := "*".toList, capturingGroup := 1 },
    { pid := 8, state := HS.Italic, c0 := "*".toList, capturingGroup := 1 },
    { pid := 9, state := HS.Bold, c0 := "**".toList, capturingGroup := 1 },
    { pid := 10, state := HS.Bold, c0 := "__".toList, capturingGroup := 1 },
    { pid := 11, state := HS.MaskedSyntax, c0 := "~".toList, capturingGroup := 1 },
    { pid := 12, state := HS.Link, c0 := "://".toList, capturingGroup := 0 },
    { pid := 13, state := HS.Link, c0 := "://".toList, capturingGroup := 1 },
    { pid := 14, state := HS.Link, c0 := "<".toList, capturingGroup := 1 },
    { pid := 15, state := HS.Link, c0 := "](".toList, capturingGroup := 1 },
    { pid := 16, state := HS.Link, c0 := "[](".toList, capturingGroup := 1 },
    { pid := 17, state := HS.Link, c0 := "@".toList, capturingGroup := 1 },
    { pid := 18, state := HS.Link, c0 := "[".toList, capturingGroup := 1 },
    { pid := 19, state := HS.Image, c0 := "![".toList, capturingGroup := 1 },
    { pid := 20, state := HS.Image, c0 := "![]".toList, capturingGroup := 1 },
    { pid := 21, state := HS.Link, c0 := "[![".toList, capturingGroup := 1 },
    { pid := 22, state := HS.Link, c0 := "[![](".toList, capturingGroup := 1 },
    { pid := 23, state := HS.TrailingSpace, c0 := " \n".toList, capturingGroup := 1 },
    { pid := 24, state := HS.InlineCodeBlock, c0 := "`".toList, capturingGroup := 1 },
    { pid := 25, state := HS.CodeBlock, c0 := "\t".toList, disableIfCurrentStateIsSet := true },
    { pid := 26, state := HS.Comment, c0 := "<!--".toList, capturingGroup := 1 },
    { pid := 27, state := HS.Comment, c0 := "]: # (".toList, capturingGroup := 1 },
    { pid := 28, state := HS.Table, c0 := "|".toList } ]

/-- setHeadingStyles (markdownhighlighter.cpp:1648): inside a heading,
italic italicizes the heading format, bold re-applies the heading format,
a link with captured group 1 takes the link style at the heading's point
size; everything else is ignored (the inline-code arm is commented out in
the source). -/
def setHeadingStyles (ruleState : Int) (m : RMatch) (capturedGroup : Nat) (hl : HL) : HL :=
  if ruleState == HS.Italic then
    emitF hl (m.capStart capturedGroup) (m.capLen capturedGroup) (.headingItalic hl.state)
  else if ruleState == HS.Bold then
    emitF hl (m.capStart capturedGroup) (m.capLen capturedGroup) (.st hl.state)
  else if ruleState == HS.Link then
    if capturedGroup == 1 then
      emitF hl (m.capStart capturedGroup) (m.capLen capturedGroup) (.linkSizedAs hl.state)
    else hl
  else hl

/-- The fast-reject test of highlightAdditionalRules
(markdownhighlighter.cpp:1710): the line must contain the first substring,
or a non-empty second or third one. -/
def ruleContains (text : Str) (rule : HighlightingRule) : Bool :=
  let contains := strContains text rule.c0
  let contains := contains || (!rule.c1.isEmpty && strContains text rule.c1)
  contains || (!rule.c2.isEmpty && strContains text rule.c2)

/-- One rule of highlightAdditionalRules (markdownhighlighter.cpp:1698):
the disable check, the fast-reject test, the optional state write when any
match exists, then per match the masked-group emission (point size copied
when the rule state's theme format has one) and the captured-group
emission, both replaced by setHeadingStyles inside a heading for rules
other than inline code. -/
def applyRule (env : Env) (text : Str) (hl : HL) (rule : HighlightingRule) : HL :=
  if rule.disableIfCurrentStateIsSet && hl.state != HS.NoState then hl
  else
    if !(ruleContains text rule) then hl
    else
      let ms := env.rmatches rule.pid text
      let hl :=
        if !ms.isEmpty && rule.useStateAsCurrentBlockState then { hl with state := rule.state }
        else hl
      ms.foldl
        (fun hl m =>
          let hl :=
            if rule.capturingGroup > 0 then
              if (HS.H1 ≤ hl.state && hl.state ≤ HS.H6) && rule.state != HS.InlineCodeBlock then
                hl
              else
                let sty : Sty :=
                  if env.pointSizePos rule.state then .maskedSizedAs rule.state
                  else .st HS.MaskedSyntax
                emitF hl (m.capStart rule.maskedGroup) (m.capLen rule.maskedGroup) sty
            else hl
          if (HS.H1 ≤ hl.state && hl.state ≤ HS.H6) && rule.state != HS.InlineCodeBlock then
            setHeadingStyles rule.state m rule.capturingGroup hl
          else
            emitF hl (m.capStart rule.capturingGroup) (m.capLen rule.capturingGroup)
              (.st rule.state))
        hl

/-- highlightAdditionalRules: fold one rule table over the line. -/
def highlightAdditionalRules (env : Env) (rules : List HighlightingRule) (text : Str)
    (hl : HL) : HL :=
  rules.foldl (applyRule env text) hl

/-- addDirtyBlock (markdownhighlighter.cpp:98): append the block number
unless it is already queued. -/
def addDirtyBlock (q : List Nat) (b : Nat) : List Nat :=
  if q.contains b then q else q ++ [b]

/-- The `while (i < text.length && text.at(i) == '#' && i < 6)` count of
highlightHeadline, with its budget of at most six leading hashes. -/
def hashRunAux (t : Str) : Nat → Nat → Nat
  | 0, i => i
  | b + 1, i => if t[i]? == some '#' && i < 6 then hashRunAux t b (i + 1) else i

/-- Position after the run of leading `#` starting at index 1. -/
def hashRun (t : Str) (i : Nat) : Nat := hashRunAux t 6 i

/-- The hasOnlyHeadChars lambda of highlightHeadline
(markdownhighlighter.cpp:616). -/
def hasOnlyHeadChars (txt : Str) (c : Char) : Bool :=
  !txt.isEmpty && txt.all (fun x => x == c)

/-- highlightSubHeadline (markdownhighlighter.cpp:656): on a `===`/`---`
underline whose previous line is non-empty and whose previous state is the
target heading state or NoState, mask the underline at the heading's point
size, set HeadlineEnd, write the heading state into the previous block's
user state, and queue the previous block unless previousBlockState() —
which now reads the state just written — differs from the heading state. -/
def highlightSubHeadline (ctx : Ctx) (text : Str) (state : Int) (hl : HL) : HL :=
  let prevTextLen := ctx.prevText.length
  if (hl.prevUserState == state || hl.prevUserState == HS.NoState) && prevTextLen > 0 then
    let hl := emitF hl 0 text.length (.maskedSizedAs state)
    let hl := { hl with state := HS.HeadlineEnd }
    let hl := { hl with prevUserState := state }
    if hl.prevUserState != state then { hl with dirty := addDirtyBlock hl.dirty ctx.prevBlockId }
    else hl
  else hl

/-- The setext and lookahead part of highlightHeadline: an all-`=` line is
an H1 underline, an all-`-` line an H2 underline; otherwise, when the next
block is such an underline, this line is promoted to H1 or H2 now. -/
def highlightHeadlineTail (ctx : Ctx) (text : Str) (hl : HL) : HL :=
  if hasOnlyHeadChars text '=' then highlightSubHeadline ctx text HS.H1 hl
  else if hasOnlyHeadChars text '-' then highlightSubHeadline ctx text HS.H2 hl
  else
    let hl :=
      if hasOnlyHeadChars ctx.nextText '=' then
        { (emitF hl 0 text.length (.st HS.H1)) with state := HS.H1 }
      else hl
    if hasOnlyHeadChars ctx.nextText '-' then
      { (emitF hl 0 text.length (.st HS.H2)) with state := HS.H2 }
    else hl

/-- highlightHeadline (markdownhighlighter.cpp:588): `k` leading hashes
followed by a space style the whole line H_k and set state H_k
(setCurrentBlockMargin is disabled in the source); otherwise the setext
and lookahead logic runs.  Only called on non-empty lines, as in the
source. -/
def highlightHeadline (ctx : Ctx) (text : Str) (hl : HL) : HL :=
  if text[0]? == some '#' then
    if 1 ≥ text.length then hl
    else
      let i := hashRun text 1
      let headingLevel := if text[i]? == some ' ' then i else 0
      if headingLevel > 0 then
        let state := HS.H1 + (headingLevel : Int) - 1
        { (emitF hl 0 text.length (.st state)) with state := state }
      else highlightHeadlineTail ctx text hl
  else highlightHeadlineTail ctx text hl

/-- highlightCommentBlock (markdownhighlighter.cpp:1615), which works on
the trimmed line: an inline `<!-- ... -->` line is left to the inline
rule; a line opening a comment, or inside one that does not close it,
gets state Comment; opening, inside and closing lines are styled Comment
over the trimmed length. -/
def highlightCommentBlock (text0 : Str) (hl : HL) : HL :=
  let text := trimQ text0
  if strStartsWith text ("<!--".toList) && strContains text ("-->".toList) then hl
  else
    let p : HL × Bool :=
      if strStartsWith text ("<!--".toList)
         || (!(strEndsWith text ("-->".toList)) && hl.prevUserState == HS.Comment) then
        ({ hl with state := HS.Comment }, true)
      else if strEndsWith text ("-->".toList) then (hl, true)
      else (hl, false)
    if p.2 then emitF p.1 0 text.length (.st HS.Comment) else p.1

/-- highlightFrontmatterBlock (markdownhighlighter.cpp:1584): only active
when the document's first line is exactly `---`; such a line toggles
FrontmatterBlock/FrontmatterBlockEnd (only the first block may open one),
and lines inside carry FrontmatterBlock; all are fully masked. -/
def highlightFrontmatterBlock (ctx : Ctx) (text : Str) (hl : HL) : HL :=
  if ctx.docFirstText != ("---".toList) then hl
  else if text == ("---".toList) then
    let foundEnd := hl.prevUserState == HS.FrontmatterBlock
    if !foundEnd && !ctx.currentIsFirst then hl
    else
      let hl :=
        { hl with
          state := if foundEnd then HS.FrontmatterBlockEnd else HS.FrontmatterBlock }
      emitF hl 0 text.length (.st HS.MaskedSyntax)
  else if hl.prevUserState == HS.FrontmatterBlock then
    emitF { hl with state := HS.FrontmatterBlock } 0 text.length (.st HS.MaskedSyntax)
  else hl

/-- highlightMarkdown (markdownhighlighter.cpp:568): on a non-empty line
the pre rules, heading detection and post rules; then always the comment
block, code block and frontmatter machines. -/
def highlightMarkdown (env : Env) (ctx : Ctx) (text : Str) (hl : HL) : Option HL :=
  let hl :=
    if !text.isEmpty then
      let hl := highlightAdditionalRules env highlightingRulesPre text hl
      let hl := highlightHeadline ctx text hl
      highlightAdditionalRules env highlightingRulesAfter text hl
    else hl
  let hl := highlightCommentBlock text hl
  match highlightCodeBlock env text hl with
  | none => none
  | some hl => some (highlightFrontmatterBlock ctx text hl)

/-- highlightBlock (markdownhighlighter.cpp:561): state reset to NoState,
then highlightMarkdown.  The result carries the emitted `setFormat` calls,
the terminal state, the blocks queued as dirty during the call, and the
previous block's (possibly rewritten) user state. -/
def highlightBlockF (env : Env) (ctx : Ctx) (text : Str) (prevState : Int) : Option HL :=
  highlightMarkdown env ctx text
    { state := HS.NoState, fmts := [], dirty := [], prevUserState := prevState }

/-- reHighlightDirtyBlocks' loop body (markdownhighlighter.cpp:78): take
the front block, re-highlight it (whatever that run queues is added while
the block is still in the queue), then remove the first entry.  The
re-highlight's effect on the queue is abstracted as `rehigh`. -/
def reHighlightStep (rehigh : Nat → List Nat) (q : List Nat) : List Nat :=
  match q with
  | [] => []
  | b :: rest => ((rehigh b).foldl addDirtyBlock (b :: rest)).tail

/-- The drain loop: repeat reHighlightStep until the queue is empty,
collecting the processed block numbers in order. -/
def reHighlightDirtyBlocks (rehigh : Nat → List Nat) : Nat → List Nat → List Nat × List Nat
  | 0, q => ([], q)
  | _ + 1, [] => ([], [])
  | fuel + 1, b :: rest =>
    let p := reHighlightDirtyBlocks rehigh fuel (reHighlightStep rehigh (b :: rest))
    (b :: p.1, p.2)

/-- Modelled from the spec: "each entry removed before its line is
re-highlit" (section 3, Dirty queue) — the drain step with removal first,
for comparison with `reHighlightStep`, which the source performs in the
opposite order. -/
def drainStepRemoveFirst (rehigh : Nat → List Nat) (q : List Nat) : List Nat :=
  match q with
  | [] => []
  | b :: rest => (rehigh b).foldl addDirtyBlock rest

/-- Context of a one-line document consisting of the given line. -/
def ctxSingle (t : Str) : Ctx :=
  { prevText := [], nextText := [], docFirstText := t, currentIsFirst := true, prevBlockId := 0 }

/-- Context of the middle line of a three-line fenced cpp block. -/
def ctxCpp : Ctx :=
  { prevText := "```cpp".toList, nextText := "```".toList, docFirstText := "```cpp".toList,
    currentIsFirst := false, prevBlockId := 0 }

/-- Context of a line inside a ```yaml fence. -/
def ctxYaml : Ctx :=
  { prevText := "```yaml".toList, nextText := "```".toList, docFirstText := "```yaml".toList,
    currentIsFirst := false, prevBlockId := 0 }

/-- Context of a line inside a ```yml fence. -/
def ctxYml : Ctx :=
  { prevText := "```yml".toList, nextText := [], docFirstText := "```yml".toList,
    currentIsFirst := false, prevBlockId := 0 }

/-- Context with an empty previous line (for the underline scenarios). -/
def ctxNoPrev : Ctx :=
  { prevText := [], nextText := [], docFirstText := "x".toList, currentIsFirst := false,
    prevBlockId := 0 }

/-- The same context with a non-empty previous line `Title`. -/
def ctxPrevTitle : Ctx :=
  { prevText := "Title".toList, nextText := [], docFirstText := "x".toList,
    currentIsFirst := false, prevBlockId := 0 }

/-- Context of the line `Title` in the two-line document `Title`, `=====`. -/
def ctxTitle : Ctx :=
  { prevText := [], nextText := "=====".toList, docFirstText := "Title".toList,
    currentIsFirst := true, prevBlockId := 0 }

/-- Context of the line `=====` in that document (the previous block is block 0). -/
def ctxUnderline : Ctx :=
  { prevText := "Title".toList, nextText := [], docFirstText := "Title".toList,
    currentIsFirst := false, prevBlockId := 0 }

/-- C1: the registry maps the fenced-code tag `go` to the C# state CodeCSharp
(markdownhighlighter.cpp:510), not to the Go state CodeGo the section-6 table
names, so a ```go fence opens with terminal state CodeCSharp; the claim's
table is contradicted at this one tag. -/
theorem c1_go_maps_to_csharp :
    langStringToEnum ("go".toList) = HS.CodeCSharp ∧
    HS.CodeCSharp ≠ HS.CodeGo ∧
    highlightCodeBlock envDefault ("```go".toList)
        { state := HS.NoState, fmts := [], dirty := [], prevUserState := HS.NoState } =
      some { state := HS.CodeCSharp,
             fmts := [⟨0, 5, Sty.maskedSizedAs HS.CodeBlock⟩], dirty := [],
             prevUserState := HS.NoState } := by
  refine ⟨by decide, by decide, by decide⟩

/-- C2 counterexample: on `int x = 0x2A;` with previous state CodeCpp the
whole output is the default code-block format plus `int` as CodeType — no
CodeNumLiteral annotation exists, so `0x2A` is not annotated as a numeric
literal, contrary to the claim. -/
theorem c2_counterexample :
    highlightBlockF envDefault ctxCpp ("int x = 0x2A;".toList) HS.CodeCpp =
      some { state := HS.CodeCpp,
             fmts := [⟨0, 13, Sty.st HS.CodeBlock⟩, ⟨0, 3, Sty.st HS.CodeType⟩],
             dirty := [], prevUserState := HS.CodeCpp } ∧
    ([(⟨0, 13, Sty.st HS.CodeBlock⟩ : Fmt), ⟨0, 3, Sty.st HS.CodeType⟩].all
      (fun f => f.sty != Sty.st HS.CodeNumLiteral)) = true := by
  refine ⟨by decide, by decide⟩

/-- C2 as amended: on `int x = 0x2A;` inside a cpp fence, `int` is annotated
CodeType over [0,3), `x` and `;` keep the default whole-line CodeBlock
format, and `0x2A` receives no numeric-literal annotation: the scanner
consumes the leading `0x` and decimal digits only, stops before `A`, and
the trailing-boundary check fails at `A`, so the numeric style is not
applied.  The second conjunct records that every rule's fast-reject test
fails on this line, so no regular expression is ever consulted and the
result does not depend on the abstracted regex engine. -/
theorem c2_amended :
    highlightBlockF envDefault ctxCpp ("int x = 0x2A;".toList) HS.CodeCpp =
      some { state := HS.CodeCpp,
             fmts := [⟨0, 13, Sty.st HS.CodeBlock⟩, ⟨0, 3, Sty.st HS.CodeType⟩],
             dirty := [], prevUserState := HS.CodeCpp } ∧
    ((highlightingRulesPre ++ highlightingRulesAfter).all
      (fun r => !(ruleContains ("int x = 0x2A;".toList) r))) = true := by
  refine ⟨by decide, by decide⟩

/-- C3: the YAML post processor reads `text.trimmed().at(0)` even when the
trimmed text is empty, an out-of-bounds read: on the whitespace-only line
`"   "` inside a yaml fence both ymlHighlighter and the whole
highlightBlock pipeline fail instead of producing annotations. -/
theorem c3_yml_out_of_bounds_read :
    ymlHighlighter ("   ".toList)
        { state := HS.CodeYAML, fmts := [⟨0, 3, Sty.st HS.CodeBlock⟩], dirty := [],
          prevUserState := HS.CodeYAML } = none ∧
    highlightBlockF envDefault ctxYaml ("   ".toList) HS.CodeYAML = none := by
  refine ⟨rfl, rfl⟩

/-- C4 counterexample: two highlightBlock invocations with the same line
`=====` and the same previous state NoState but different previous-line
text produce different outputs (nothing vs. a HeadlineEnd underline), so
the output is not a function of (text, prev_state) alone. -/
theorem c4_counterexample :
    highlightBlockF envDefault ctxNoPrev ("=====".toList) HS.NoState ≠
      highlightBlockF envDefault ctxPrevTitle ("=====".toList) HS.NoState := by
  decide

/-- C4 as amended: the output is a function of the line text, the previous
state and the read document context (previous line's text, next line's
text, the document's first line, the first-block flag) together with the
injected regex engine and theme: invocations agreeing on all of these
yield identical annotations and terminal state. -/
theorem c4_amended :
    ∀ (env : Env) (ctx ctx' : Ctx) (t t' : Str) (s s' : Int),
      ctx = ctx' → t = t' → s = s' →
      highlightBlockF env ctx t s = highlightBlockF env ctx' t' s' := by
  intro env ctx ctx' t t' s s' h1 h2 h3
  subst h1; subst h2; subst h3; rfl

/-- C4 witness: the amended determinism applied at a concrete input. -/
theorem c4_witness :
    highlightBlockF envDefault ctxNoPrev ("=====".toList) HS.NoState =
      highlightBlockF envDefault ctxNoPrev ("=====".toList) HS.NoState :=
  c4_amended envDefault ctxNoPrev ctxNoPrev ("=====".toList) ("=====".toList)
    HS.NoState HS.NoState rfl rfl rfl

/-- Every registered tag maps into the language band, at or above CodeCpp. -/
theorem langValues_in_band : ∀ p ∈ langStringToEnumList, HS.CodeCpp ≤ p.2 := by decide

/-- The tag slice `text.mid(3, text.length())` is everything after the
backticks. -/
theorem qmid_tag (t : Str) : qmid t 3 (t.length : Int) = t.drop 3 := by
  unfold qmid
  rw [if_neg (by omega)]
  rw [Int.toNat_natCast]
  exact List.take_of_length_le (by simp)

/-- C5 counterexample: the line `" ```"` (one leading space) has a trimmed
text beginning with three backticks and a code-block previous state, yet
highlightCodeBlock does not close the block: the fence test uses the
untrimmed text, so the state carries CodeBlock forward and no masked
annotation is emitted. -/
theorem c5_counterexample :
    strStartsWith (trimQ (" ```".toList)) ("```".toList) = true ∧
    isCodeBlockState HS.CodeBlock = true ∧
    highlightCodeBlock envDefault (" ```".toList)
        { state := HS.NoState, fmts := [], dirty := [], prevUserState := HS.CodeBlock } =
      some { state := HS.CodeBlock, fmts := [⟨0, 4, Sty.st HS.CodeBlock⟩], dirty := [],
             prevUserState := HS.CodeBlock } ∧
    (HS.CodeBlock : Int) ≠ HS.CodeBlockEnd ∧
    ((⟨0, 4, Sty.maskedSizedAs HS.CodeBlock⟩ : Fmt) ∈
        ([⟨0, 4, Sty.st HS.CodeBlock⟩] : List Fmt)) = False := by
  refine ⟨by decide, by decide, by decide, by decide, by simp⟩

/-- C5 as amended: for every line whose text itself (untrimmed) begins with
three backticks, highlightCodeBlock emits a whole-line masked annotation at
the code-block point size and sets the terminal state to the registered
language state of the lowercased tag after the backticks (generic CodeBlock
when the tag is unknown) when the previous state is not a code-block
state, and to CodeBlockEnd when it is. -/
theorem c5_amended (env : Env) (text : Str) (hl : HL)
    (h : strStartsWith text ("```".toList) = true) :
    ∃ hl', highlightCodeBlock env text hl = some hl' ∧
      hl'.fmts = hl.fmts ++ [⟨0, (text.length : Int), Sty.maskedSizedAs HS.CodeBlock⟩] ∧
      hl'.dirty = hl.dirty ∧ hl'.prevUserState = hl.prevUserState ∧
      (isCodeBlockState hl.prevUserState = false →
        hl'.state = (lookupTag (lowerStr (text.drop 3))).getD HS.CodeBlock) ∧
      (isCodeBlockState hl.prevUserState = true → hl'.state = HS.CodeBlockEnd) := by
  unfold highlightCodeBlock
  rw [h, if_pos rfl]
  by_cases hcb : isCodeBlockState hl.prevUserState = true
  · have h4 : ¬ (hl.prevUserState != HS.CodeBlock && hl.prevUserState != HS.CodeBlockComment
        && decide (hl.prevUserState < HS.CodeCpp)) = true := by
      simp only [isCodeBlockState, Bool.or_eq_true, beq_iff_eq, decide_eq_true_eq] at hcb
      simp only [Bool.and_eq_true, bne_iff_ne, decide_eq_true_eq, HS.CodeBlock,
        HS.CodeBlockComment, HS.CodeCpp] at *
      omega
    rw [if_neg h4, if_pos (by simp only [isCodeBlockState] at hcb; exact hcb)]
    refine ⟨_, rfl, ?_, ?_, ?_, ?_, ?_⟩
    · simp [emitF]
    · simp [emitF]
    · simp [emitF]
    · intro hfalse; rw [hcb] at hfalse; cases hfalse
    · intro _; simp [emitF]
  · have hcb' : isCodeBlockState hl.prevUserState = false := by
      revert hcb; cases isCodeBlockState hl.prevUserState <;> simp
    have h4 : (hl.prevUserState != HS.CodeBlock && hl.prevUserState != HS.CodeBlockComment
        && decide (hl.prevUserState < HS.CodeCpp)) = true := by
      simp only [isCodeBlockState, Bool.or_eq_true, beq_iff_eq, decide_eq_true_eq] at hcb
      simp only [Bool.and_eq_true, bne_iff_ne, decide_eq_true_eq, HS.CodeBlock,
        HS.CodeBlockComment, HS.CodeCpp] at *
      push_neg at hcb
      omega
    rw [if_pos h4]
    rw [qmid_tag]
    rcases hlook : lookupTag (lowerStr (text.drop 3)) with _ | l
    · have hzero : langStringToEnum (lowerStr (text.drop 3)) = 0 := by
        unfold langStringToEnum; rw [hlook]; rfl
      refine ⟨_, rfl, ?_, ?_, ?_, ?_, ?_⟩
      · simp [emitF, hzero, HS.CodeCpp]
      · simp [emitF, hzero, HS.CodeCpp]
      · simp [emitF, hzero, HS.CodeCpp]
      · intro _
        simp [hzero, emitF, HS.CodeCpp]
      · intro htrue; rw [hcb'] at htrue; cases htrue
    · have hl200 : HS.CodeCpp ≤ l := by
        unfold lookupTag at hlook
        rcases hfind : langStringToEnumList.find? (fun p => p.fst.toList == lowerStr (text.drop 3))
          with _ | p
        · rw [hfind] at hlook; cases hlook
        · rw [hfind] at hlook
          simp at hlook
          exact hlook ▸ langValues_in_band p (List.mem_of_find?_eq_some hfind)
      have hval : langStringToEnum (lowerStr (text.drop 3)) = l := by
        unfold langStringToEnum; rw [hlook]; rfl
      refine ⟨_, rfl, ?_, ?_, ?_, ?_, ?_⟩
      · simp [emitF, hval, hl200]
      · simp [emitF, hval, hl200]
      · simp [emitF, hval, hl200]
      · intro _
        simp [hval, emitF, hl200]
      · intro htrue; rw [hcb'] at htrue; cases htrue

/-- C5 witness: the amended fence behaviour at the concrete line ```cpp
with previous state NoState. -/
theorem c5_witness :
    ∃ hl', highlightCodeBlock envDefault ("```cpp".toList)
        { state := HS.NoState, fmts := [], dirty := [], prevUserState := HS.NoState } =
        some hl' ∧
      hl'.fmts = [] ++ [⟨0, ((("```cpp".toList) : Str).length : Int),
        Sty.maskedSizedAs HS.CodeBlock⟩] ∧
      hl'.dirty = [] ∧ hl'.prevUserState = HS.NoState ∧
      (isCodeBlockState HS.NoState = false →
        hl'.state = (lookupTag (lowerStr (("```cpp".toList : Str).drop 3))).getD HS.CodeBlock) ∧
      (isCodeBlockState HS.NoState = true → hl'.state = HS.CodeBlockEnd) :=
  c5_amended envDefault ("```cpp".toList)
    { state := HS.NoState, fmts := [], dirty := [], prevUserState := HS.NoState } (by decide)

/-- C6 counterexample: on `# Heading one` with previous state NoState the
pipeline emits exactly one annotation, the whole line in the H1 style; no
masked-syntax annotation exists at all, so the leading `#` is not
additionally masked, contrary to the claim. -/
theorem c6_counterexample :
    highlightBlockF envDefault (ctxSingle ("# Heading one".toList)) ("# Heading one".toList)
        HS.NoState =
      some { state := HS.H1, fmts := [⟨0, 13, Sty.st HS.H1⟩], dirty := [],
             prevUserState := HS.NoState } ∧
    ([(⟨0, 13, Sty.st HS.H1⟩ : Fmt)].all
      (fun f => f.sty != Sty.st HS.MaskedSyntax)) = true ∧
    (∀ s : Int, (Sty.st HS.H1) ≠ Sty.maskedSizedAs s) := by
  refine ⟨by decide, by decide, fun s hs => Sty.noConfusion hs⟩

/-- C6 as amended: `# Heading one` with previous state NoState yields
terminal state H1 and the whole line `[0,13)` styled H1, with no separate
masked-syntax annotation on the `#`; and in general a line of `k` leading
hashes (1 ≤ k ≤ 6) followed by a space makes highlightHeadline set terminal
state H_k = H1+k-1 and emit one whole-line annotation in that style. -/
theorem c6_amended :
    (highlightBlockF envDefault (ctxSingle ("# Heading one".toList)) ("# Heading one".toList)
        HS.NoState =
      some { state := HS.H1, fmts := [⟨0, 13, Sty.st HS.H1⟩], dirty := [],
             prevUserState := HS.NoState }) ∧
    (∀ (ctx : Ctx) (k : Nat) (rest : Str) (hl : HL), 1 ≤ k → k ≤ 6 →
      highlightHeadline ctx (List.replicate k '#' ++ ' ' :: rest) hl =
        { hl with state := HS.H1 + (k : Int) - 1,
                  fmts := hl.fmts ++ [⟨0, ((k + 1 + rest.length : Nat) : Int),
                    Sty.st (HS.H1 + (k : Int) - 1)⟩] }) := by
  refine ⟨by decide, ?_⟩
  intro ctx k rest hl h1 h2
  interval_cases k <;>
    (simp [highlightHeadline, hashRun, hashRunAux, emitF, HS.H1, List.replicate]; omega)

/-- C7 counterexample: processing `Title` then `=====` in order, the first
line already becomes H1 through the next-line lookahead during its own
highlight, and the underline invocation queues nothing: both dirty lists
are empty, so the first line is never requeued through the dirty queue,
contrary to the claim. -/
theorem c7_counterexample :
    highlightBlockF envDefault ctxTitle ("Title".toList) HS.NoState =
      some { state := HS.H1, fmts := [⟨0, 5, Sty.st HS.H1⟩], dirty := [],
             prevUserState := HS.NoState } ∧
    highlightBlockF envDefault ctxUnderline ("=====".toList) HS.H1 =
      some { state := HS.HeadlineEnd, fmts := [⟨0, 5, Sty.maskedSizedAs HS.H1⟩],
             dirty := [], prevUserState := HS.H1 } := by
  refine ⟨by decide, by decide⟩

/-- C7 as amended: in the `Title`/`=====` document the first line becomes H1
via the lookahead during its own highlight (not through the queue); the
underline gets terminal state HeadlineEnd and is fully masked at the H1
point size; the previous block's user state is written to H1 directly; and
highlightSubHeadline never queues a dirty block, because its requeue
check re-reads the previous-block state it has just overwritten with the
heading state. -/
theorem c7_amended :
    (highlightBlockF envDefault ctxTitle ("Title".toList) HS.NoState =
      some { state := HS.H1, fmts := [⟨0, 5, Sty.st HS.H1⟩], dirty := [],
             prevUserState := HS.NoState }) ∧
    (highlightBlockF envDefault ctxUnderline ("=====".toList) HS.H1 =
      some { state := HS.HeadlineEnd, fmts := [⟨0, 5, Sty.maskedSizedAs HS.H1⟩],
             dirty := [], prevUserState := HS.H1 }) ∧
    (∀ (ctx : Ctx) (text : Str) (state : Int) (hl : HL),
      (highlightSubHeadline ctx text state hl).dirty = hl.dirty ∧
      (highlightSubHeadline ctx text state hl).prevUserState = state ∨
      highlightSubHeadline ctx text state hl = hl) := by
  refine ⟨by decide, by decide, ?_⟩
  intro ctx text state hl
  by_cases hc : ((hl.prevUserState == state || hl.prevUserState == HS.NoState)
      && decide (ctx.prevText.length > 0)) = true
  · left
    simp [highlightSubHeadline, hc, emitF]
  · right
    simp [highlightSubHeadline, hc]

/-- C8: on the YAML line `c:\x` the colon is followed by a backslash, yet
the span before it is still annotated CodeKeyWord: the source's path guard
`at(colon+1) == '\\' && at(colon+1) == '/'` can never hold, so the
exception documented above ymlHighlighter never fires. -/
theorem c8_path_colon_still_keyword :
    (("c:\\x".toList : Str).getD 2 ' ' = '\\') ∧
    highlightBlockF envDefault ctxYml ("c:\\x".toList) HS.CodeYAML =
      some { state := HS.CodeYAML,
             fmts := [⟨0, 4, Sty.st HS.CodeBlock⟩, ⟨0, 1, Sty.st HS.CodeKeyWord⟩],
             dirty := [], prevUserState := HS.CodeYAML } ∧
    (⟨0, 1, Sty.st HS.CodeKeyWord⟩ : Fmt) ∈
      [(⟨0, 4, Sty.st HS.CodeBlock⟩ : Fmt), ⟨0, 1, Sty.st HS.CodeKeyWord⟩] := by
  refine ⟨by decide, by decide, by decide⟩

/-- C9 counterexample: with a re-highlight that re-queues its own block, the
source's drain step (re-highlight first, then removeFirst) drops the
request, while the claimed remove-before-re-highlight step keeps it: the
two orders are observably different, so entries are not removed before
their line is re-highlighted. -/
theorem c9_counterexample :
    reHighlightStep (fun b => [b]) [0] = [] ∧
    drainStepRemoveFirst (fun b => [b]) [0] = [0] ∧
    ([] : List Nat) ≠ [0] := by
  refine ⟨by decide, by decide, by decide⟩

/-- C9 as amended: addDirtyBlock keeps the queue duplicate-free, the drain
processes entries front-first in FIFO order (with no re-adds it processes
exactly the queue in order and empties it), but each entry is removed from
the queue only after its line is re-highlighted, so a line re-added during
its own re-highlight is dropped. -/
theorem c9_amended :
    (∀ (q : List Nat) (b : Nat), q.Nodup → (addDirtyBlock q b).Nodup) ∧
    (∀ (fuel : Nat) (q : List Nat), q.length ≤ fuel →
      reHighlightDirtyBlocks (fun _ => []) fuel q = (q, [])) ∧
    (∀ b : Nat, reHighlightStep (fun x => [x]) [b] = []) := by
  refine ⟨?_, ?_, ?_⟩
  · intro q b hq
    unfold addDirtyBlock
    split
    · exact hq
    · next hmem =>
      rw [List.nodup_append]
      refine ⟨hq, List.nodup_singleton b, fun a ha hb => ?_⟩
      simp only [List.mem_singleton] at hb
      subst hb
      exact hmem (List.elem_iff.mpr ha)
  · intro fuel
    induction fuel with
    | zero => intro q hq; simp at hq; simp [hq, reHighlightDirtyBlocks]
    | succ n ih =>
      intro q hq
      match q with
      | [] => rfl
      | b :: rest =>
        have hstep : reHighlightStep (fun _ => []) (b :: rest) = rest := rfl
        have hlen : rest.length ≤ n := by
          simp only [List.length_cons] at hq
          omega
        simp only [reHighlightDirtyBlocks, hstep, ih rest hlen]
  · intro b
    show ((([b] : List Nat).foldl addDirtyBlock [b]).tail) = []
    simp [addDirtyBlock]

/-- C9 witness: the amended properties applied at concrete inputs. -/
theorem c9_witness :
    (addDirtyBlock [0, 1] 1).Nodup ∧
    reHighlightDirtyBlocks (fun _ => []) 3 [5, 7] = ([5, 7], []) := by
  exact ⟨c9_amended.1 [0, 1] 1 (by decide), c9_amended.2.1 3 [5, 7] (by decide)⟩

/-- Appending a non-TrailingSpace annotation preserves NoTS. -/
theorem NoTS_emitF {hl : HL} {sty : Sty} (h : NoTS hl.fmts)
    (hs : sty ≠ Sty.st HS.TrailingSpace) (a b : Int) : NoTS (emitF hl a b sty).fmts := by
  intro f hf
  rcases List.mem_append.1 hf with hf | hf
  · exact h f hf
  · simp at hf; subst hf; exact hs

/-- NoTS is preserved by a fold whose step preserves it (cursor/context pairs). -/
theorem noTS_foldl {β : Type} (f : Nat × HL → β → Nat × HL)
    (hf : ∀ p w, NoTS p.2.fmts → NoTS (f p w).2.fmts) :
    ∀ (l : List β) (p : Nat × HL), NoTS p.2.fmts → NoTS (l.foldl f p).2.fmts := by
  intro l
  induction l with
  | nil => intro p h; exact h
  | cons w r ih => intro p h; exact ih _ (hf _ _ h)

/-- NoTS is preserved by a fold whose step preserves it (plain contexts). -/
theorem noTS_foldl_hl {β : Type} (f : HL → β → HL)
    (hf : ∀ hl w, NoTS hl.fmts → NoTS (f hl w).fmts) :
    ∀ (l : List β) (hl : HL), NoTS hl.fmts → NoTS (l.foldl f hl).fmts := by
  intro l
  induction l with
  | nil => intro hl h; exact h
  | cons w r ih => intro hl h; exact ih _ (hf _ _ h)

/-- A character of a matched pattern occurs in the text. -/
theorem strStartsWith_mem : ∀ {t p : Str} {c : Char},
    strStartsWith t p = true → c ∈ p → c ∈ t := by
  intro t
  induction t with
  | nil =>
    intro p c hs hc
    cases p with
    | nil => cases hc
    | cons b q => cases hs
  | cons a r ih =>
    intro p c hs hc
    cases p with
    | nil => cases hc
    | cons b q =>
      unfold strStartsWith at hs
      rcases (Bool.and_eq_true _ _).mp hs with ⟨hab, hrest⟩
      rcases List.mem_cons.mp hc with hc | hc
      · subst hc
        exact (beq_iff_eq.mp hab) ▸ List.mem_cons_self a r
      · exact List.mem_cons_of_mem a (ih hrest hc)

/-- A character of a contained pattern occurs in the text. -/
theorem strContains_mem : ∀ {t p : Str} {c : Char},
    strContains t p = true → c ∈ p → c ∈ t := by
  intro t
  induction t with
  | nil =>
    intro p c hs hc
    unfold strContains at hs
    cases p with
    | nil => cases hc
    | cons b q => cases hs
  | cons a r ih =>
    intro p c hs hc
    unfold strContains at hs
    rcases (Bool.or_eq_true _ _).mp hs with hs | hs
    · exact strStartsWith_mem hs hc
    · exact List.mem_cons_of_mem a (ih hs hc)

/-- The numeric scanner emits only the numeric-literal style. -/
theorem noTS_numeric (text : Str) (i : Nat) (hl : HL) (h : NoTS hl.fmts) :
    NoTS (highlightNumericLiterals text i hl).2.fmts := by
  unfold highlightNumericLiterals
  dsimp only
  repeat' split
  all_goals first | exact h | exact NoTS_emitF h (by decide) _ _

/-- The string-literal loop emits only string and numeric styles. -/
theorem noTS_stringLitLoop (strType : Char) (text : Str) :
    ∀ (fuel i : Nat) (hl : HL), NoTS hl.fmts →
      ∀ r, stringLitLoop strType text fuel i hl = some r → NoTS r.2.fmts := by
  intro fuel
  induction fuel with
  | zero => intro i hl h r hr; cases hr; exact h
  | succ n ih =>
    intro i hl h r hr
    unfold stringLitLoop at hr
    dsimp only at hr
    split at hr
    · cases hr; exact h
    · split at hr
      · cases hr; exact NoTS_emitF h (by decide) _ _
      · split at hr
        · split at hr
          · cases hr
          · exact ih _ _ (NoTS_emitF h (by decide) _ _) r hr
          · exact ih _ _ (NoTS_emitF h (by decide) _ _) r hr
        · exact ih _ _ (NoTS_emitF h (by decide) _ _) r hr

/-- The string-literal scanner emits only string and numeric styles. -/
theorem noTS_highlightStringLiterals (strType : Char) (text : Str) (i : Nat) (hl : HL)
    (h : NoTS hl.fmts) :
    ∀ r, highlightStringLiterals strType text i hl = some r → NoTS r.2.fmts := by
  intro r hr
  exact noTS_stringLitLoop strType text _ _ _ (NoTS_emitF h (by decide) _ _) r hr

/-- The comment-close search emits only the comment style. -/
theorem noTS_commentClose (text : Str) (i : Nat) (hl : HL) (h : NoTS hl.fmts) :
    NoTS (ccFmts (commentClose text i hl)) := by
  unfold commentClose
  dsimp only
  repeat' split
  all_goals exact NoTS_emitF h (by decide) _ _

/-- The non-letter skipping loop emits only comment, numeric and string
styles. -/
theorem noTS_synWhile (comment : Option Char) (text : Str) :
    ∀ (fuel i : Nat) (hl : HL), NoTS hl.fmts →
      wresOK (synWhile comment text fuel i hl) := by
  intro fuel
  induction fuel with
  | zero => intro i hl h; exact h
  | succ n ih =>
    intro i hl h
    unfold synWhile
    dsimp only
    split
    · exact h
    · split
      · split
        · exact h
        · split
          · exact h
          · exact ih _ _ h
      · split
        · split
          · split
            · exact NoTS_emitF h (by decide) _ _
            · split
              · split
                · rename_i hl' heq
                  have hc := noTS_commentClose text i hl h
                  rw [heq] at hc
                  exact hc
                · rename_i i' hl' heq
                  have hc := noTS_commentClose text i hl h
                  rw [heq] at hc
                  split
                  · exact hc
                  · exact ih _ _ hc
              · split
                · exact h
                · exact ih _ _ h
          · split
            · exact h
            · exact ih _ _ h
        · split
          · exact NoTS_emitF h (by decide) _ _
          · split
            · split
              · exact noTS_numeric text i hl h
              · exact ih _ _ (noTS_numeric text i hl h)
            · split
              · split
                · trivial
                · rename_i i2 hl2 heq
                  have hc := noTS_highlightStringLiterals '"' text i hl h (i2, hl2) heq
                  split
                  · exact hc
                  · exact ih _ _ hc
              · split
                · split
                  · trivial
                  · rename_i i2 hl2 heq
                    have hc := noTS_highlightStringLiterals '\'' text i hl h (i2, hl2) heq
                    split
                    · exact hc
                    · exact ih _ _ hc
                · split
                  · exact h
                  · exact ih _ _ h

/-- One for-iteration entry preserves NoTS. -/
theorem noTS_synStep (comment : Option Char) (text : Str) (i : Nat) (hl : HL)
    (h : NoTS hl.fmts) : wresOK (synStep comment text i hl) := by
  unfold synStep
  dsimp only
  split
  · split
    · rename_i hl' heq
      have hc := noTS_commentClose text i hl h
      rw [heq] at hc
      exact hc
    · rename_i i' hl' heq
      have hc := noTS_commentClose text i hl h
      rw [heq] at hc
      split
      · exact hc
      · exact noTS_synWhile comment text _ _ _ hc
  · exact noTS_synWhile comment text _ _ _ h

/-- The word-table lambda emits only its given style. -/
theorem noTS_applyCodeFormat (i : Nat) (bucket : Char → List Str) (text : Str)
    {sty : Sty} (hs : sty ≠ Sty.st HS.TrailingSpace) (hl : HL) (h : NoTS hl.fmts) :
    NoTS (applyCodeFormat i bucket text sty hl).2.fmts := by
  unfold applyCodeFormat
  dsimp only
  split
  · apply noTS_foldl
    · intro p w hp
      dsimp only
      repeat' split
      all_goals first | exact hp | exact NoTS_emitF hp hs _ _
    · exact h
  · exact h

/-- The `others` block emits only the CodeOther style. -/
theorem noTS_othersPhase (bundle : LangBundle) (text : Str) (p : Nat × HL)
    (hp : NoTS p.2.fmts) : NoTS (othersPhase bundle text p).2.fmts := by
  unfold othersPhase
  dsimp only
  split
  · apply noTS_foldl
    · intro q w hq
      dsimp only
      repeat' split
      all_goals first | exact hq | exact NoTS_emitF hq (by decide) _ _
    · exact hp
  · exact hp

/-- The trailing skip of the word phase changes the cursor only. -/
theorem noTS_skipTail (text : Str) (pos : Nat) (q : Nat × HL) (hq : NoTS q.2.fmts) :
    NoTS (if pos == q.1 then
        ((q.1 + ((text.drop q.1).takeWhile isLetterQ).length, q.2) : Nat × HL)
      else q).2.fmts := by
  split
  · exact hq
  · exact hq

/-- The word phase emits only the code-token styles. -/
theorem noTS_wordPhase (bundle : LangBundle) (text : Str) (i : Nat) (hl : HL)
    (h : NoTS hl.fmts) : NoTS (wordPhase bundle text i hl).2.fmts := by
  unfold wordPhase
  dsimp only
  split
  · exact h
  · split
    · exact noTS_applyCodeFormat _ _ _ (by decide) _ h
    · split
      · exact noTS_applyCodeFormat _ _ _ (by decide) _
          (noTS_applyCodeFormat _ _ _ (by decide) _ h)
      · split
        · exact noTS_applyCodeFormat _ _ _ (by decide) _
            (noTS_applyCodeFormat _ _ _ (by decide) _
              (noTS_applyCodeFormat _ _ _ (by decide) _ h))
        · split
          · exact noTS_applyCodeFormat _ _ _ (by decide) _
              (noTS_applyCodeFormat _ _ _ (by decide) _
                (noTS_applyCodeFormat _ _ _ (by decide) _
                  (noTS_applyCodeFormat _ _ _ (by decide) _ h)))
          · exact noTS_skipTail text i _
              (noTS_othersPhase _ _ _
                (noTS_applyCodeFormat _ _ _ (by decide) _
                  (noTS_applyCodeFormat _ _ _ (by decide) _
                    (noTS_applyCodeFormat _ _ _ (by decide) _
                      (noTS_applyCodeFormat _ _ _ (by decide) _ h)))))

/-- The scanner loop preserves NoTS, in both the early-return and the
fall-through result. -/
theorem noTS_synFor (bundle : LangBundle) (comment : Option Char) (text : Str) :
    ∀ (fuel i : Nat) (hl : HL), NoTS hl.fmts →
      ∀ r, synFor bundle comment text fuel i hl = some r → NoTS r.1.fmts := by
  intro fuel
  induction fuel with
  | zero => intro i hl h r hr; cases hr; exact h
  | succ n ih =>
    intro i hl h r hr
    unfold synFor at hr
    dsimp only at hr
    split at hr
    · cases hr; exact h
    · split at hr
      · cases hr
      · rename_i hl' heq
        cases hr
        have hw := noTS_synStep comment text i hl h
        rw [heq] at hw
        exact hw
      · rename_i i' hl' heq
        have hw := noTS_synStep comment text i hl h
        rw [heq] at hw
        exact ih _ _ (noTS_wordPhase bundle text i' hl' hw) r hr

/-- One YAML iteration emits only keyword and underlined-link styles. -/
theorem noTS_ymlStep (text : Str) (i : Nat) (cnf : Bool) (hl : HL) (h : NoTS hl.fmts) :
    NoTS (yresFmts (ymlStep text i cnf hl)) := by
  unfold ymlStep
  dsimp only
  repeat' first
    | exact h
    | apply NoTS_emitF
    | decide
    | split

/-- The YAML loop emits only keyword and underlined-link styles. -/
theorem noTS_ymlLoop (text : Str) :
    ∀ (fuel i : Nat) (cnf : Bool) (hl : HL), NoTS hl.fmts →
      NoTS (ymlLoop text fuel i cnf hl).fmts := by
  intro fuel
  induction fuel with
  | zero => intro i cnf hl h; exact h
  | succ n ih =>
    intro i cnf hl h
    unfold ymlLoop
    split
    · exact h
    · split
      · rename_i hl' heq
        have hs := noTS_ymlStep text i cnf hl h
        rw [heq] at hs
        exact hs
      · rename_i i' cnf' hl' heq
        have hs := noTS_ymlStep text i cnf hl h
        rw [heq] at hs
        exact ih _ _ _ hs

/-- ymlHighlighter preserves NoTS when it succeeds. -/
theorem noTS_ymlHighlighter (text : Str) (hl : HL) (h : NoTS hl.fmts) :
    ∀ r, ymlHighlighter text hl = some r → NoTS r.fmts := by
  intro r hr
  unfold ymlHighlighter at hr
  split at hr
  · cases hr; exact h
  · split at hr
    · cases hr
    · split at hr
      · cases hr; exact h
      · cases hr; exact noTS_ymlLoop text _ _ _ _ h

/-- The INI loop emits only type, comment and keyword styles (with their
error-underline variants). -/
theorem noTS_iniLoop (text : Str) :
    ∀ (fuel i : Nat) (hl : HL), NoTS hl.fmts → NoTS (iniLoop text fuel i hl).fmts := by
  intro fuel
  induction fuel with
  | zero => intro i hl h; exact h
  | succ n ih =>
    intro i hl h
    unfold iniLoop
    dsimp only
    repeat' first
      | exact h
      | apply ih
      | apply NoTS_emitF
      | decide
      | split

/-- iniHighlighter preserves NoTS. -/
theorem noTS_iniHighlighter (text : Str) (hl : HL) (h : NoTS hl.fmts) :
    NoTS (iniHighlighter text hl).fmts := by
  unfold iniHighlighter
  split
  · exact h
  · exact noTS_iniLoop text _ _ _ h

/-- One CSS iteration emits only keyword, cleared and colourised styles. -/
theorem noTS_cssStep (env : Env) (text : Str) (i : Nat) (hl : HL) (h : NoTS hl.fmts) :
    NoTS (crFmts (cssStep env text i hl)) := by
  unfold cssStep cssSelectorPhase cssColorPhase
  dsimp only
  repeat' first
    | exact h
    | apply NoTS_emitF
    | decide
    | exact fun hx => Sty.noConfusion hx
    | split

/-- The CSS loop emits only keyword, cleared and colourised styles. -/
theorem noTS_cssLoop (env : Env) (text : Str) :
    ∀ (fuel i : Nat) (hl : HL), NoTS hl.fmts → NoTS (cssLoop env text fuel i hl).fmts := by
  intro fuel
  induction fuel with
  | zero => intro i hl h; exact h
  | succ n ih =>
    intro i hl h
    unfold cssLoop
    split
    · exact h
    · split
      · rename_i hl' heq
        have hs := noTS_cssStep env text i hl h
        rw [heq] at hs
        exact hs
      · rename_i i' hl' heq
        have hs := noTS_cssStep env text i hl h
        rw [heq] at hs
        exact ih _ _ hs

/-- cssHighlighter preserves NoTS. -/
theorem noTS_cssHighlighter (env : Env) (text : Str) (hl : HL) (h : NoTS hl.fmts) :
    NoTS (cssHighlighter env text hl).fmts := by
  unfold cssHighlighter
  split
  · exact h
  · exact noTS_cssLoop env text _ _ _ h

/-- The tag phase of the XML loop emits only the keyword style. -/
theorem noTS_xmlTagPhase (text : Str) (i : Nat) (hl : HL) (h : NoTS hl.fmts) :
    NoTS (pairFmts (xmlTagPhase text i hl)) := by
  unfold xmlTagPhase
  dsimp only
  repeat' first
    | exact h
    | apply NoTS_emitF
    | decide
    | split
    | dsimp only [pairFmts]
    | (intro f hf; cases hf)

/-- The tag phase of the XML loop, on success. -/
theorem noTS_xmlTagPhaseEq (text : Str) (i : Nat) (hl : HL) (h : NoTS hl.fmts)
    (i2 : Nat) (hl2 : HL) (hr : xmlTagPhase text i hl = some (i2, hl2)) :
    NoTS hl2.fmts := by
  have hx := noTS_xmlTagPhase text i hl h
  rw [hr] at hx
  exact hx

/-- The attribute phase of the XML loop emits only the builtin style. -/
theorem noTS_xmlEqPhase (text : Str) (i : Nat) (hl : HL) (h : NoTS hl.fmts) :
    NoTS (xmlEqPhase text i hl).fmts := by
  unfold xmlEqPhase
  dsimp only
  repeat' first
    | exact h
    | apply NoTS_emitF
    | decide
    | split

/-- The XML loop emits only code-block, keyword, builtin and string styles. -/
theorem noTS_xmlLoop (text : Str) :
    ∀ (fuel i : Nat) (hl : HL), NoTS hl.fmts →
      NoTS (optFmts (xmlLoop text fuel i hl)) := by
  intro fuel
  induction fuel with
  | zero => intro i hl h; exact h
  | succ n ih =>
    intro i hl h
    unfold xmlLoop
    dsimp only
    split
    · exact h
    · split
      · intro f hf; cases hf
      · rename_i i1 hl1 heq
        have h1 := noTS_xmlTagPhaseEq text i hl h i1 hl1 heq
        have h2 := noTS_xmlEqPhase text i1 hl1 h1
        split
        · split
          · exact h2
          · exact ih _ _ (NoTS_emitF h2 (by decide) _ _)
        · exact ih _ _ h2

/-- xmlHighlighter preserves NoTS when it succeeds. -/
theorem noTS_xmlHighlighter (text : Str) (hl : HL) (h : NoTS hl.fmts) :
    ∀ r, xmlHighlighter text hl = some r → NoTS r.fmts := by
  intro r hr
  unfold xmlHighlighter at hr
  split at hr
  · cases hr; exact h
  · have hx := noTS_xmlLoop text (text.length + 1) 0 (emitF hl 0 text.length (.st HS.CodeBlock))
      (NoTS_emitF h (by decide) _ _)
    rw [hr] at hx
    exact hx

/-- The keyword phase of the tagger-script loop. -/
theorem noTS_tagDollarPhase (text : Str) (i : Nat) (hl : HL) (h : NoTS hl.fmts) :
    NoTS (tagDollarPhase text i hl).2.fmts := by
  unfold tagDollarPhase
  dsimp only
  repeat' first
    | exact h
    | apply NoTS_emitF
    | decide
    | split

/-- The variable phase of the tagger-script loop. -/
theorem noTS_tagPercentPhase (text : Str) (i : Nat) (hl : HL) (h : NoTS hl.fmts) :
    NoTS (tagPercentPhase text i hl).2.fmts := by
  unfold tagPercentPhase
  dsimp only
  repeat' first
    | exact h
    | apply NoTS_emitF
    | decide
    | exact fun hx => Sty.noConfusion hx
    | split

/-- The comment phase of the tagger-script loop. -/
theorem noTS_tagNoopPhase (text : Str) (i : Nat) (hl : HL) (h : NoTS hl.fmts) :
    NoTS (tagNoopPhase text i hl).2.fmts := by
  unfold tagNoopPhase
  dsimp only
  repeat' first
    | exact h
    | apply NoTS_emitF
    | decide
    | split

/-- The tagger-script loop emits only keyword, type, comment, escape and
error-underline styles. -/
theorem noTS_tagLoop (text : Str) :
    ∀ (fuel i : Nat) (hl : HL), NoTS hl.fmts →
      NoTS (optFmts (tagLoop text fuel i hl)) := by
  intro fuel
  induction fuel with
  | zero => intro i hl h; exact h
  | succ n ih =>
    intro i hl h
    unfold tagLoop
    dsimp only
    split
    · exact h
    · split
      · exact h
      · have h1 := noTS_tagDollarPhase text i hl h
        have h2 := noTS_tagPercentPhase text (tagDollarPhase text i hl).1
          (tagDollarPhase text i hl).2 h1
        split
        · exact h2
        · have h3 := noTS_tagNoopPhase text
            (tagPercentPhase text (tagDollarPhase text i hl).1 (tagDollarPhase text i hl).2).1
            (tagPercentPhase text (tagDollarPhase text i hl).1 (tagDollarPhase text i hl).2).2 h2
          split
          · intro f hf; cases hf
          · rename_i c heq
            split
            · exact ih _ _ (NoTS_emitF h3 (by decide) _ _)
            · exact ih _ _ h3

/-- taggerScriptHighlighter preserves NoTS when it succeeds. -/
theorem noTS_taggerScriptHighlighter (text : Str) (hl : HL) (h : NoTS hl.fmts) :
    ∀ r, taggerScriptHighlighter text hl = some r → NoTS r.fmts := by
  intro r hr
  unfold taggerScriptHighlighter at hr
  split at hr
  · cases hr; exact h
  · have hx := noTS_tagLoop text (text.length + 1) 0 hl h
    rw [hr] at hx
    exact hx

/-- The whole code scanner emits no TrailingSpace annotation. -/
theorem noTS_highlightSyntaxFn (env : Env) (text : Str) (hl : HL) (h : NoTS hl.fmts) :
    ∀ r, highlightSyntaxFn env text hl = some r → NoTS r.fmts := by
  intro r hr
  unfold highlightSyntaxFn at hr
  dsimp only at hr
  split at hr
  · cases hr; exact h
  · split at hr
    · exact noTS_xmlHighlighter text hl h r hr
    · split at hr
      · cases hr; exact noTS_iniHighlighter text hl h
      · split at hr
        · exact noTS_taggerScriptHighlighter text hl h r hr
        · split at hr
          · cases hr
          · rename_i p heq
            cases hr
            exact noTS_synFor _ _ text _ _ _ (NoTS_emitF h (by decide) _ _) _ heq
          · rename_i p heq
            have hmid := noTS_synFor _ _ text _ _ _ (NoTS_emitF h (by decide) _ _) _ heq
            have hcss := noTS_cssHighlighter env text p hmid
            split at hr <;> split at hr <;> first
              | (cases hr; exact hcss)
              | (cases hr; exact hmid)
              | exact noTS_ymlHighlighter text _ hcss r hr
              | exact noTS_ymlHighlighter text _ hmid r hr

/-- A line without a newline character cannot contain the substring
`" \n"` (a real line never does: Qt hands highlightBlock single lines). -/
theorem strContains_spaceNl_false : ∀ (t : Str), '\n' ∉ t →
    strContains t (' ' :: '\n' :: []) = false := by
  intro t
  induction t with
  | nil => intro _; rfl
  | cons c r ih =>
    intro h
    have hc : '\n' ∉ r := fun hx => h (List.mem_cons_of_mem c hx)
    have hsw : strStartsWith (c :: r) (' ' :: '\n' :: []) = false := by
      match r with
      | [] => simp [strStartsWith]
      | d :: r2 =>
        have hd : ¬d = '\n' := fun he => hc (he ▸ List.mem_cons_self d r2)
        simp [strStartsWith, hd]
    rw [strContains, hsw, Bool.false_or]
    exact ih hc

/-- A rule of the tables either has a non-TrailingSpace state or, lacking a
newline in the line, fails its fast-reject test. -/
theorem rule_disj (text : Str) (hnl : '\n' ∉ text) (r : HighlightingRule)
    (hb : ((r.state != HS.TrailingSpace)
      || (r.c0 == (' ' :: '\n' :: []) && r.c1.isEmpty && r.c2.isEmpty)) = true) :
    r.state ≠ HS.TrailingSpace ∨ ruleContains text r = false := by
  rcases (Bool.or_eq_true _ _).mp hb with h1 | h2
  · exact Or.inl (by simpa using h1)
  · right
    have h2a := (Bool.and_eq_true _ _).mp h2
    have h2b := (Bool.and_eq_true _ _).mp h2a.1
    have hc0 : r.c0 = ' ' :: '\n' :: [] := eq_of_beq h2b.1
    have h0 := strContains_spaceNl_false text hnl
    simp [ruleContains, hc0, h2b.2, h2a.2, h0]

/-- NoTS is preserved by a fold whose step preserves it. -/
theorem noTS_foldlHL {β : Type} (f : HL → β → HL)
    (hf : ∀ hl w, NoTS hl.fmts → NoTS (f hl w).fmts) :
    ∀ (l : List β) (hl : HL), NoTS hl.fmts → NoTS (l.foldl f hl).fmts := by
  intro l
  induction l with
  | nil => intro hl h; exact h
  | cons a t ih => intro hl h; exact ih (f hl a) (hf hl a h)

/-- setHeadingStyles emits only heading-derived styles when the current
state is not TrailingSpace. -/
theorem noTS_setHeadingStyles (ruleState : Int) (m : RMatch) (g : Nat) (hl : HL)
    (h : NoTS hl.fmts) (hs : hl.state ≠ HS.TrailingSpace) :
    NoTS (setHeadingStyles ruleState m g hl).fmts := by
  unfold setHeadingStyles
  repeat' first
    | exact h
    | apply NoTS_emitF
    | exact fun hx => Sty.noConfusion hx
    | exact fun hx => hs (Sty.st.inj hx)
    | split

/-- The masked-group arm of one rule application emits only masked styles. -/
theorem noTS_ruleStage1 (ruleState : Int) (cg mg : Nat) (env : Env) (m : RMatch)
    (hl : HL) (h : NoTS hl.fmts) :
    NoTS (if cg > 0 then
        if (HS.H1 ≤ hl.state && hl.state ≤ HS.H6) && ruleState != HS.InlineCodeBlock then hl
        else
          emitF hl (m.capStart mg) (m.capLen mg)
            (if env.pointSizePos ruleState then .maskedSizedAs ruleState
             else .st HS.MaskedSyntax)
      else hl).fmts := by
  repeat' first
    | exact h
    | apply NoTS_emitF
    | decide
    | exact fun hx => Sty.noConfusion hx
    | split

/-- The captured-group arm of one rule application: inside a heading the
setHeadingStyles substitution runs, otherwise the rule's own state is
emitted, which is not TrailingSpace by hypothesis. -/
theorem noTS_ruleStage2 (ruleState : Int) (g : Nat) (m : RMatch) (hl : HL)
    (h : NoTS hl.fmts) (hrs : ruleState ≠ HS.TrailingSpace) :
    NoTS (if (HS.H1 ≤ hl.state && hl.state ≤ HS.H6) && ruleState != HS.InlineCodeBlock then
        setHeadingStyles ruleState m g hl
      else emitF hl (m.capStart g) (m.capLen g) (.st ruleState)).fmts := by
  split
  · rename_i hg
    have hg1 := (Bool.and_eq_true _ _).mp hg
    have hg2 := (Bool.and_eq_true _ _).mp hg1.1
    have hle : hl.state ≤ HS.H6 := of_decide_eq_true hg2.2
    apply noTS_setHeadingStyles ruleState m g hl h
    intro he
    rw [he] at hle
    exact absurd hle (by decide)
  · exact NoTS_emitF h (fun hx => hrs (Sty.st.inj hx)) _ _

/-- One rule application emits no TrailingSpace annotation when the rule's
state is not TrailingSpace or its fast-reject test fails. -/
theorem noTS_applyRule (env : Env) (text : Str) (hl : HL) (rule : HighlightingRule)
    (h : NoTS hl.fmts)
    (hd : rule.state ≠ HS.TrailingSpace ∨ ruleContains text rule = false) :
    NoTS (applyRule env text hl rule).fmts := by
  unfold applyRule
  split
  · exact h
  · split
    · exact h
    · rename_i hc
      have hrs : rule.state ≠ HS.TrailingSpace := by
        rcases hd with hx | hx
        · exact hx
        · exact absurd (by rw [hx]; rfl : (!ruleContains text rule) = true) hc
      dsimp only
      refine noTS_foldlHL _ ?_ _ _ ?_
      · intro hl2 m h2
        dsimp only
        exact noTS_ruleStage2 rule.state rule.capturingGroup m _
          (noTS_ruleStage1 rule.state rule.capturingGroup rule.maskedGroup env m hl2 h2) hrs
      · split
        · exact h
        · exact h

/-- A rule table emits no TrailingSpace annotation when every rule has a
non-TrailingSpace state or fails its fast-reject test. -/
theorem noTS_highlightAdditionalRules (env : Env) (text : Str) :
    ∀ (rules : List HighlightingRule) (hl : HL), NoTS hl.fmts →
      (∀ r ∈ rules, r.state ≠ HS.TrailingSpace ∨ ruleContains text r = false) →
      NoTS (highlightAdditionalRules env rules text hl).fmts := by
  intro rules
  induction rules with
  | nil => intro hl h _; exact h
  | cons r t ih =>
    intro hl h hall
    unfold highlightAdditionalRules at ih ⊢
    rw [List.foldl_cons]
    exact ih _ (noTS_applyRule env text hl r h (hall r (List.mem_cons_self r t)))
      (fun r2 h2 => hall r2 (List.mem_cons_of_mem _ h2))

/-- The leading-hash counter moves at most its budget. -/
theorem hashRunAux_le (t : Str) : ∀ (b i : Nat), hashRunAux t b i ≤ i + b := by
  intro b
  induction b with
  | zero => intro i; simp [hashRunAux]
  | succ n ih =>
    intro i
    unfold hashRunAux
    split
    · exact le_trans (ih (i + 1)) (by omega)
    · omega

/-- highlightSubHeadline emits only the masked heading-underline style. -/
theorem noTS_highlightSubHeadline (ctx : Ctx) (text : Str) (state : Int) (hl : HL)
    (h : NoTS hl.fmts) : NoTS (highlightSubHeadline ctx text state hl).fmts := by
  unfold highlightSubHeadline
  dsimp only
  repeat' first
    | exact h
    | apply NoTS_emitF
    | exact fun hx => Sty.noConfusion hx
    | split

/-- The setext and lookahead part of highlightHeadline emits only H1/H2 and
underline-mask styles. -/
theorem noTS_highlightHeadlineTail (ctx : Ctx) (text : Str) (hl : HL)
    (h : NoTS hl.fmts) : NoTS (highlightHeadlineTail ctx text hl).fmts := by
  unfold highlightHeadlineTail
  dsimp only
  repeat' first
    | exact h
    | apply noTS_highlightSubHeadline
    | apply NoTS_emitF
    | decide
    | split

/-- highlightHeadline emits only heading styles: the ATX state lies between
H1 and H1+6, and the setext part is covered separately. -/
theorem noTS_highlightHeadline (ctx : Ctx) (text : Str) (hl : HL)
    (h : NoTS hl.fmts) : NoTS (highlightHeadline ctx text hl).fmts := by
  unfold highlightHeadline
  dsimp only
  split
  · split
    · exact h
    · have hb : hashRun text 1 ≤ 7 := hashRunAux_le text 6 1
      split
      · split
        · apply NoTS_emitF h
          intro hx
          have hst := Sty.st.inj hx
          simp only [HS.H1, HS.TrailingSpace] at hst
          omega
        · exact noTS_highlightHeadlineTail ctx text hl h
      · split
        · apply NoTS_emitF h
          intro hx
          have hst := Sty.st.inj hx
          simp only [HS.H1, HS.TrailingSpace] at hst
          omega
        · exact noTS_highlightHeadlineTail ctx text hl h
  · exact noTS_highlightHeadlineTail ctx text hl h

/-- highlightCommentBlock emits only the Comment style. -/
theorem noTS_highlightCommentBlock (text0 : Str) (hl : HL) (h : NoTS hl.fmts) :
    NoTS (highlightCommentBlock text0 hl).fmts := by
  unfold highlightCommentBlock
  dsimp only
  repeat' first
    | exact h
    | apply NoTS_emitF
    | decide
    | split

/-- highlightFrontmatterBlock emits only the masked style. -/
theorem noTS_highlightFrontmatterBlock (ctx : Ctx) (text : Str) (hl : HL)
    (h : NoTS hl.fmts) : NoTS (highlightFrontmatterBlock ctx text hl).fmts := by
  unfold highlightFrontmatterBlock
  dsimp only
  repeat' first
    | exact h
    | apply NoTS_emitF
    | decide
    | split

/-- highlightCodeBlock emits only the fence mask and the code scanner's
styles when it succeeds. -/
theorem noTS_highlightCodeBlock (env : Env) (text : Str) (hl : HL) (h : NoTS hl.fmts) :
    ∀ r, highlightCodeBlock env text hl = some r → NoTS r.fmts := by
  intro r hr
  unfold highlightCodeBlock at hr
  dsimp only at hr
  split at hr
  · cases hr
    apply NoTS_emitF ?_ (fun hx => Sty.noConfusion hx)
    repeat' first
      | exact h
      | split
  · split at hr
    · exact noTS_highlightSyntaxFn env text { hl with state := hl.prevUserState } h r hr
    · cases hr; exact h

/-- highlightMarkdown emits no TrailingSpace annotation on a line without a
newline character. -/
theorem noTS_highlightMarkdown (env : Env) (ctx : Ctx) (text : Str) (hl : HL)
    (h : NoTS hl.fmts) (hnl : '\n' ∉ text) :
    ∀ r, highlightMarkdown env ctx text hl = some r → NoTS r.fmts := by
  intro r hr
  have htab : ∀ rl ∈ highlightingRulesPre ++ highlightingRulesAfter,
      ((rl.state != HS.TrailingSpace)
        || (rl.c0 == (' ' :: '\n' :: []) && rl.c1.isEmpty && rl.c2.isEmpty)) = true := by
    decide
  have hallPre : ∀ rl ∈ highlightingRulesPre,
      rl.state ≠ HS.TrailingSpace ∨ ruleContains text rl = false :=
    fun rl hm => rule_disj text hnl rl (htab rl (List.mem_append_left _ hm))
  have hallAfter : ∀ rl ∈ highlightingRulesAfter,
      rl.state ≠ HS.TrailingSpace ∨ ruleContains text rl = false :=
    fun rl hm => rule_disj text hnl rl (htab rl (List.mem_append_right _ hm))
  unfold highlightMarkdown at hr
  dsimp only at hr
  have hA : NoTS (if !text.isEmpty then
      highlightAdditionalRules env highlightingRulesAfter text
        (highlightHeadline ctx text
          (highlightAdditionalRules env highlightingRulesPre text hl))
    else hl).fmts := by
    split
    · exact noTS_highlightAdditionalRules env text highlightingRulesAfter _
        (noTS_highlightHeadline ctx text _
          (noTS_highlightAdditionalRules env text highlightingRulesPre hl h hallPre))
        hallAfter
    · exact h
  have hB := noTS_highlightCommentBlock text _ hA
  split at hr
  · cases hr
  · rename_i hl3 heq
    have hC := noTS_highlightCodeBlock env text _ hB hl3 heq
    cases hr
    exact noTS_highlightFrontmatterBlock ctx text hl3 hC

/-- C10: for every input line without a newline character and every
previous state, highlightBlock never emits a TrailingSpace annotation —
the trailing-space rule's sole fast-reject substring is `" \n"`, which a
single line never contains, so the rule is skipped even when the line ends
in spaces; no other emission carries the TrailingSpace format. -/
theorem c10_no_trailing_space (env : Env) (ctx : Ctx) (text : Str) (prevState : Int)
    (hnl : '\n' ∉ text) (hl : HL)
    (hres : highlightBlockF env ctx text prevState = some hl) :
    hl.fmts.all (fun f => f.sty != Sty.st HS.TrailingSpace) = true := by
  unfold highlightBlockF at hres
  have h0 : NoTS ([] : List Fmt) := fun f hf => absurd hf (List.not_mem_nil f)
  have hts := noTS_highlightMarkdown env ctx text
    { state := HS.NoState, fmts := [], dirty := [], prevUserState := prevState }
    h0 hnl hl hres
  rw [List.all_eq_true]
  intro f hf
  exact bne_iff_ne.mpr (hts f hf)

/-- Witness for C10: the line `a ` (a trailing space, no newline) in a
one-line document, previous state NoState. -/
theorem c10_witness :
    '\n' ∉ ("a ".toList) ∧
      (highlightBlockF envDefault (ctxSingle ("a ".toList)) ("a ".toList) (-1) =
        some ⟨-1, [], [], -1⟩ ∧
       (HL.fmts ⟨-1, [], [], -1⟩).all (fun f => f.sty != Sty.st HS.TrailingSpace) = true) :=
  ⟨by decide,
   by decide,
   c10_no_trailing_space envDefault (ctxSingle ("a ".toList)) ("a ".toList) (-1)
     (by decide) ⟨-1, [], [], -1⟩ (by decide)⟩
